import Mathlib

/-!
Shallow embedding of the trace-attribution engine of the `goongov` repository
(`src/backend/detect_culprit.py` and the result merger `combine_results` of
`src/backend/app.py`), together with theorems settling the frozen claims
about its specification.

Conventions of the embedding:
* LangChain message objects and dict-shaped messages are both modelled by
  `Msg`; an `Entry` additionally records whether the underlying Python value
  is a `BaseMessage` instance (`isBase`), which `find_issue_origin` filters on.
* Python floats carrying confidence scores are modelled by `ℚ`.
* The judge capability (an LLM chain invocation) is a black box: it is
  modelled as a function from the call's position to `Except String String`,
  an exception or the response text.  Prompt rendering, which only feeds the
  black box, is not modelled.
* In-place mutation of `msg._culprit_metadata` is modelled by explicit state
  passing: the analysis functions return the updated entry list.
* Python `dict` metadata is modelled by a record of `Option` fields: a `none`
  field is an absent key, mirroring the field-presence checks of the source.
-/

namespace GoonGov

/-! ## Python string primitives -/

/-- The `\x7b` character (left curly brace), written via `Char.ofNat`. -/
def lbrace : Char := Char.ofNat 123

/-- The `\x7d` character (right curly brace), written via `Char.ofNat`. -/
def rbrace : Char := Char.ofNat 125

/-- Single quote character. -/
def squote : Char := Char.ofNat 39

/-- Double quote character. -/
def dquote : Char := Char.ofNat 34

/-- Backslash character. -/
def bslash : Char := Char.ofNat 92

/-- Python `str.strip` / regex `\s` whitespace characters (ASCII part). -/
def isPySpace (c : Char) : Bool :=
  c = ' ' || c = '\t' || c = '\n' || c = '\r' || c = Char.ofNat 11 || c = Char.ofNat 12

/-- ASCII uppercase test, as used by Python `str.lower` on ASCII text. -/
def isUpperAscii (c : Char) : Bool :=
  decide (65 ≤ c.toNat) && decide (c.toNat ≤ 90)

/-- Python `str.lower` on a single ASCII character. -/
def lowerChar (c : Char) : Char :=
  if 65 ≤ c.toNat ∧ c.toNat ≤ 90 then Char.ofNat (c.toNat + 32) else c

/-- Python `str.lower` (ASCII fragment). -/
def lowerStr (s : String) : String := ⟨s.data.map lowerChar⟩

/-- Python `str.strip()` on a character list. -/
def pyStripChars (l : List Char) : List Char :=
  ((l.dropWhile isPySpace).reverse.dropWhile isPySpace).reverse

/-- Python `str.strip()`. -/
def pyStrip (s : String) : String := ⟨pyStripChars s.data⟩

/-- Python `str.split(',')` on a character list: split at every comma. -/
def splitCommaAux (acc : List Char) : List Char → List (List Char)
  | [] => [acc.reverse]
  | c :: rest =>
    if c = ',' then acc.reverse :: splitCommaAux [] rest
    else splitCommaAux (c :: acc) rest

/-- Python `str.split(',')`. -/
def splitComma (s : String) : List String :=
  (splitCommaAux [] s.data).map fun l => ⟨l⟩

/-- Python `str.splitlines()` on a character list (`\n`, `\r\n`, `\r`). -/
def pySplitlinesChars (cur : List Char) : List Char → List (List Char)
  | [] => if cur.isEmpty then [] else [cur.reverse]
  | '\r' :: '\n' :: rest => cur.reverse :: pySplitlinesChars [] rest
  | '\r' :: rest => cur.reverse :: pySplitlinesChars [] rest
  | '\n' :: rest => cur.reverse :: pySplitlinesChars [] rest
  | c :: rest => pySplitlinesChars (c :: cur) rest

/-- Python `str.splitlines()`. -/
def pySplitlines (s : String) : List String :=
  (pySplitlinesChars [] s.data).map fun l => ⟨l⟩

/-- Python substring containment `needle in hay` on character lists. -/
def subOccurs (needle : List Char) : List Char → Bool
  | [] => needle.isEmpty
  | c :: rest => needle.isPrefixOf (c :: rest) || subOccurs needle rest

/-- Python slicing `s[:n]`. -/
def pyTruncate (s : String) (n : Nat) : String := ⟨s.data.take n⟩

/-! ## Python `float()` of a numeric string -/

/-- Is the character an ASCII digit. -/
def isDigitChar (c : Char) : Bool := decide (48 ≤ c.toNat) && decide (c.toNat ≤ 57)

/-- Value of a digit character. -/
def digitVal (c : Char) : Nat := c.toNat - 48

/-- Accumulate a digit run into a natural number. -/
def digitsToNat (l : List Char) : Nat :=
  l.foldl (fun acc c => acc * 10 + digitVal c) 0

/-- Parse an optional sign, returning the sign factor and the rest. -/
def parseSign : List Char → ℚ × List Char
  | '-' :: rest => (-1, rest)
  | '+' :: rest => (1, rest)
  | l => (1, l)

/-- Parse the mantissa `digits[.digits] | .digits` of a Python float literal.
Returns the value and the remaining characters, or `none` if no digit at all. -/
def parseMantissa (l : List Char) : Option (ℚ × List Char) :=
  let ip := l.takeWhile isDigitChar
  let rest := l.dropWhile isDigitChar
  match rest with
  | '.' :: rest2 =>
    let fp := rest2.takeWhile isDigitChar
    let rest3 := rest2.dropWhile isDigitChar
    if ip.isEmpty && fp.isEmpty then none
    else some ((digitsToNat ip : ℚ) + (digitsToNat fp : ℚ) / ((10 : ℚ) ^ fp.length), rest3)
  | _ =>
    if ip.isEmpty then none else some ((digitsToNat ip : ℚ), rest)

/-- Parse an optional exponent part `e[+-]digits`. -/
def parseExponent (l : List Char) : Option (ℚ × List Char) :=
  match l with
  | c :: rest =>
    if c = 'e' || c = 'E' then
      let (sg, rest2) := parseSign rest
      let ds := rest2.takeWhile isDigitChar
      let rest3 := rest2.dropWhile isDigitChar
      if ds.isEmpty then none
      else
        let e := digitsToNat ds
        some (if sg = 1 then ((10 : ℚ) ^ e) else ((10 : ℚ) ^ e)⁻¹, rest3)
    else some (1, l)
  | [] => some (1, [])

/-- Python `float(s)` restricted to finite decimal literals; `none` models a
raised `ValueError`. -/
def pyFloatStr (s : String) : Option ℚ :=
  let l := pyStripChars s.data
  let (sg, l1) := parseSign l
  match parseMantissa l1 with
  | none => none
  | some (m, l2) =>
    match parseExponent l2 with
    | none => none
    | some (ex, l3) => if l3.isEmpty then some (sg * m * ex) else none

/-! ## The flat JSON fragment used by the response parser

`find_issue_origin` extracts, with the regex `\x7b[^\x7b\x7d]*"confidence"[^\x7b\x7d]*\x7d`,
the first brace-delimited segment that contains no nested braces and mentions
`"confidence"`, and feeds it to `json.loads`.  Because the segment is brace
free inside, the JSON value is a flat object; the mini parser below covers the
value shapes `string / number / true / false / null` (anything else reaches
the same fallback branch as a `json.loads` or `float()` exception would). -/

inductive JVal where
  | num (q : ℚ)
  | str (s : String)
  | bool (b : Bool)
  | null
  deriving Repr, DecidableEq

/-- Skip JSON whitespace. -/
def skipWs (l : List Char) : List Char :=
  l.dropWhile fun c => c = ' ' || c = '\t' || c = '\n' || c = '\r'

/-- Parse a JSON string body after the opening quote, handling escapes. -/
def parseJsonStr (fuel : Nat) (acc : List Char) (l : List Char) :
    Option (String × List Char) :=
  match fuel with
  | 0 => none
  | fuel + 1 =>
    match l with
    | [] => none
    | c :: rest =>
      if c = dquote then some (⟨acc.reverse⟩, rest)
      else if c = bslash then
        match rest with
        | [] => none
        | e :: rest2 =>
          if e = 'n' then parseJsonStr fuel ('\n' :: acc) rest2
          else if e = 't' then parseJsonStr fuel ('\t' :: acc) rest2
          else if e = 'r' then parseJsonStr fuel ('\r' :: acc) rest2
          else if e = 'b' then parseJsonStr fuel (Char.ofNat 8 :: acc) rest2
          else if e = 'f' then parseJsonStr fuel (Char.ofNat 12 :: acc) rest2
          else if e = dquote || e = bslash || e = '/' then parseJsonStr fuel (e :: acc) rest2
          else none
      else parseJsonStr fuel (c :: acc) rest

/-- Parse a JSON number. -/
def parseJsonNum (l : List Char) : Option (ℚ × List Char) :=
  let (sg, l1) := match l with
    | '-' :: rest => ((-1 : ℚ), rest)
    | _ => ((1 : ℚ), l)
  match parseMantissa l1 with
  | none => none
  | some (m, l2) =>
    match parseExponent l2 with
    | none => none
    | some (ex, l3) => some (sg * m * ex, l3)

/-- Parse one JSON value of the flat fragment. -/
def parseJsonVal (l : List Char) : Option (JVal × List Char) :=
  match l with
  | [] => none
  | c :: rest =>
    if c = dquote then (parseJsonStr (rest.length + 1) [] rest).map fun p => (.str p.1, p.2)
    else if isDigitChar c || c = '-' then (parseJsonNum l).map fun p => (.num p.1, p.2)
    else if ['t', 'r', 'u', 'e'].isPrefixOf l then some (.bool true, l.drop 4)
    else if ['f', 'a', 'l', 's', 'e'].isPrefixOf l then some (.bool false, l.drop 5)
    else if ['n', 'u', 'l', 'l'].isPrefixOf l then some (.null, l.drop 4)
    else none

/-- Parse the members of a flat JSON object after the opening brace. -/
def parseJsonMembers (fuel : Nat) (acc : List (String × JVal)) (l : List Char) :
    Option (List (String × JVal)) :=
  match fuel with
  | 0 => none
  | fuel + 1 =>
    match skipWs l with
    | [] => none
    | c :: rest =>
      if c ≠ dquote then none
      else
        match parseJsonStr (rest.length + 1) [] rest with
        | none => none
        | some (key, rest2) =>
          match skipWs rest2 with
          | ':' :: rest3 =>
            match parseJsonVal (skipWs rest3) with
            | none => none
            | some (v, rest4) =>
              match skipWs rest4 with
              | ',' :: rest5 => parseJsonMembers fuel ((key, v) :: acc) rest5
              | [] => some (((key, v) :: acc).reverse)
              | _ => none
          | _ => none

/-- `json.loads` on the flat object fragment: the input is the matched segment
including its braces; `none` models a raised `JSONDecodeError`. -/
def parseFlatJson (seg : List Char) : Option (List (String × JVal)) :=
  match seg with
  | c :: rest =>
    if c = lbrace then
      match (skipWs rest).reverse with
      | c2 :: revBody =>
        if c2 = rbrace then
          let body := revBody.reverse
          match skipWs body with
          | [] => some []
          | _ => parseJsonMembers (body.length + 1) [] body
        else none
      | [] => none
    else none
  | [] => none

/-- Python `dict.get` after `json.loads`: later duplicate keys win. -/
def jsonGet (obj : List (String × JVal)) (key : String) : Option JVal :=
  (obj.reverse.find? fun kv => kv.1 = key).map (·.2)

/-- Python `float(v)` on a JSON value; `none` models a raised error. -/
def pyFloatJ : JVal → Option ℚ
  | .num q => some q
  | .str s => pyFloatStr s
  | .bool b => some (if b then 1 else 0)
  | .null => none

/-! ## The two regex searches of the response parser -/

/-- Maximal brace-free run: characters up to the first `\x7b` or `\x7d`. -/
def braceFreeRun (l : List Char) : List Char :=
  l.takeWhile fun c => c ≠ lbrace && c ≠ rbrace

/-- `re.search` of `\x7b[^\x7b\x7d]*"confidence"[^\x7b\x7d]*\x7d`: the leftmost
brace-opened segment whose brace-free interior contains `"confidence"` and is
closed by `\x7d`.  Returns the matched segment (braces included). -/
def findJsonSeg : List Char → Option (List Char)
  | [] => none
  | c :: rest =>
    if c = lbrace then
      let interior := braceFreeRun rest
      let afterIt := rest.drop interior.length
      match afterIt with
      | c2 :: _ =>
        if c2 = rbrace && subOccurs (dquote :: ("confidence".data ++ [dquote])) interior then
          some (lbrace :: interior ++ [rbrace])
        else findJsonSeg rest
      | [] => none
    else findJsonSeg rest

/-- Character class `["\s:]` of the fallback regex. -/
def isConfSep (c : Char) : Bool := c = dquote || c = ':' || isPySpace c

/-- Is `confidence` a case-insensitive prefix here. -/
def confWordAt (l : List Char) : Bool :=
  "confidence".data.isPrefixOf (l.map lowerChar)

/-- `re.search(r'confidence["\s:]+([0-9.]+)', text, IGNORECASE)`: after the
leftmost viable occurrence of `confidence`, at least one separator character,
then the captured maximal run of digits and dots. -/
def regexConfSearch : List Char → Option String
  | [] => none
  | c :: rest =>
    if confWordAt (c :: rest) then
      let afterWord := (c :: rest).drop 10
      let seps := afterWord.takeWhile isConfSep
      let afterSeps := afterWord.dropWhile isConfSep
      let capture := afterSeps.takeWhile fun d => isDigitChar d || d = '.'
      if !seps.isEmpty && !capture.isEmpty then some ⟨capture⟩
      else regexConfSearch rest
    else regexConfSearch rest

/-! ## Data model -/

/-- Message role, as normalized by `_get_message_type`. -/
inductive Role where
  | system | human | ai | tool | unknown
  deriving Repr, DecidableEq, BEq

/-- One requested tool invocation on an `ai` message. -/
structure ToolCall where
  name : String
  args : String
  deriving Repr, DecidableEq

/-- The immutable core of a message: every field except the mutable
attribution-metadata slot.  Pydantic value equality (used by `list.index`)
compares exactly these declared fields. -/
structure MsgCore where
  role : Role
  content : String
  name : Option String
  id : Option String
  tool_calls : List ToolCall
  deriving Repr, DecidableEq

/-- The `_culprit_metadata` dict: a `none` field is an absent key. -/
structure Metadata where
  is_culprit : Option Bool := none
  confidence : Option ℚ := none
  explanation : Option String := none
  component : Option String := none
  is_failure : Option Bool := none
  responsible_component : Option String := none
  deriving Repr, DecidableEq

/-- The empty metadata dict `\x7b\x7d`. -/
def Metadata.isEmptyDict (m : Metadata) : Bool :=
  m.is_culprit.isNone && m.confidence.isNone && m.explanation.isNone &&
  m.component.isNone && m.is_failure.isNone && m.responsible_component.isNone

/-- A trace message: core fields plus the mutable metadata slot
(`none` models a missing `_culprit_metadata` attribute/key). -/
structure Msg where
  core : MsgCore
  metadata : Option Metadata := none
  deriving Repr, DecidableEq

/-- One element of `trace_data['messages']`: `isBase` records whether the
Python value is a `BaseMessage` instance (vs. a dict-shaped message). -/
structure Entry where
  isBase : Bool
  msg : Msg
  deriving Repr, DecidableEq

/-- Errors of the analysis calls. -/
inductive AError where
  | invalidInput
  | judgeErr (e : String)
  | indexErr
  deriving Repr, DecidableEq

/-! ## Components (`find_issue_origin`, lines 299-320 and 379-384) -/

/-- The component a message belongs to: `'Orchestrator'` for `ai` messages,
the tool name for `tool` messages, `None` otherwise. -/
def componentOfMsg (m : Msg) : Option String :=
  match m.core.role with
  | .ai => some "Orchestrator"
  | .tool => m.core.name
  | _ => none

/-- Python truthiness applied to the component (`''` and `None` are falsy). -/
def truthyComponent (m : Msg) : Option String :=
  match componentOfMsg m with
  | some s => if s = "" then none else some s
  | none => none

/-- `if msg_component and msg_component in relevant_components`. -/
def isRelevantB (comps : List String) (m : Msg) : Bool :=
  match truthyComponent m with
  | some s => comps.contains s
  | none => false

/-- `msg_component or "Unknown"`. -/
def msgComponentOr (m : Msg) : String := (truthyComponent m).getD "Unknown"

/-! ## Component classifier pre-pass (`find_issue_origin`, lines 239-288) -/

/-- Parse the classifier response: strip, lower-case, and unless it is the
sentinel `all`, split on commas and strip each part. -/
def parseCompsResp (txt : String) : Option (List String) :=
  let ct := lowerStr (pyStrip txt)
  if ct = "all" then none else some ((splitComma ct).map pyStrip)

/-- The narrowed component set: active only with `use_component_focus` and
more than 3 analyzable messages; a classifier exception fails open. -/
def relevantComponentsOf (useFocus : Bool) (nMsgs : Nat)
    (classifierResp : Except String String) : Option (List String) :=
  if useFocus && decide (nMsgs > 3) then
    match classifierResp with
    | .error _ => none
    | .ok txt => parseCompsResp txt
  else none

/-! ## Judge-response parsing (`find_issue_origin`, lines 398-419) -/

/-- Fallback parsing branch (lines 410-413 and 416-419): regex confidence
extraction with the raw truncated response as explanation; a `float()` failure
on the captured group raises into the outer handler. -/
def fallbackParse (resp : String) (m : Msg) : Except String (ℚ × String × String) :=
  match regexConfSearch resp.data with
  | none => .ok (0, pyTruncate resp 200, msgComponentOr m)
  | some capture =>
    match pyFloatStr capture with
    | some q => .ok (q, pyTruncate resp 200, msgComponentOr m)
    | none => .error "ValueError: could not convert string to float"

/-- The parser chain: strict JSON extraction first, then the regex fallback.
Returns `(confidence, explanation, identified_component)`. -/
def parseChain (resp : String) (m : Msg) : Except String (ℚ × String × String) :=
  match findJsonSeg resp.data with
  | none => fallbackParse resp m
  | some seg =>
    match parseFlatJson seg with
    | none => fallbackParse resp m
    | some obj =>
      match pyFloatJ ((jsonGet obj "confidence").getD (.num 0)) with
      | none => fallbackParse resp m
      | some conf =>
        let expl := match jsonGet obj "explanation" with
          | some (.str s) => s
          | _ => "No explanation provided"
        let comp := match jsonGet obj "component" with
          | some (.str s) => s
          | _ => msgComponentOr m
        .ok (conf, expl, comp)

/-- Outcome of evaluating one candidate message. -/
structure EvalRes where
  confidence : ℚ
  explanation : String
  component : String
  isErr : Bool
  deriving Repr, DecidableEq

/-- Evaluate one candidate: invoke the judge (call number `idx`), parse the
response, and enhance the explanation with the component tag (lines 386-427).
Any exception is recovered as a zero-confidence, error-annotated outcome. -/
def evalMsg (judge : Nat → Except String String) (idx : Nat) (m : Msg) : EvalRes :=
  match judge idx with
  | .error e => ⟨0, "Error during evaluation: " ++ e, msgComponentOr m, true⟩
  | .ok resp =>
    match parseChain resp m with
    | .error e => ⟨0, "Error during evaluation: " ++ e, msgComponentOr m, true⟩
    | .ok (conf, expl, comp) =>
      let expl2 :=
        if comp ≠ "" && !(subOccurs comp.data expl.data) then "[" ++ comp ++ "] " ++ expl
        else expl
      ⟨conf, expl2, comp, false⟩

/-! ## `find_issue_origin` pipeline -/

/-- `message_list` with original positions: the `BaseMessage` entries. -/
def baseMessages (entries : List Entry) : List (Nat × Msg) :=
  (entries.enum.filter fun pe => pe.2.isBase).map fun pe => (pe.1, pe.2.msg)

/-- Step-2 priority reordering (lines 295-320): with narrowing active,
relevant-component messages first, the rest after, both order preserving. -/
def reorderByRel (comps? : Option (List String)) (l : List (Nat × Msg)) :
    List (Nat × Msg) :=
  match comps? with
  | none => l
  | some comps =>
    l.filter (fun pm => isRelevantB comps pm.2) ++
      l.filter (fun pm => !isRelevantB comps pm.2)

/-- The candidate list actually evaluated: reversed (most recent first),
priority-reordered, truncated to `max_messages_to_check`. -/
def originCandidatesOf (entries : List Entry) (useFocus : Bool)
    (classifierResp : Except String String) (maxN : Nat) : List (Nat × Msg) :=
  let bm := baseMessages entries
  (reorderByRel (relevantComponentsOf useFocus bm.length classifierResp)
    bm.reverse).take maxN

/-- The metadata dict written for one evaluated message (lines 435-463):
written wholesale, replacing any previous `_culprit_metadata`. -/
def evalMeta (t : ℚ) (r : EvalRes) : Metadata :=
  { is_culprit := some (!r.isErr && decide (r.confidence ≥ t))
    confidence := some r.confidence
    explanation := some r.explanation
    component := some r.component }

/-- A message as it looks after its evaluation annotated it. -/
def annotate (t : ℚ) (judge : Nat → Except String String) (idx : Nat) (m : Msg) :
    Msg :=
  { m with metadata := some (evalMeta t (evalMsg judge idx m)) }

/-- The retained culprit tuples, in evaluation order (before the final sort):
a candidate is appended iff its confidence clears the threshold (lines 429-433). -/
def originResultsPre (cands : List (Nat × Msg)) (judge : Nat → Except String String)
    (t : ℚ) : List (Msg × ℚ × String) :=
  cands.enum.filterMap fun ip =>
    let r := evalMsg judge ip.1 ip.2.2
    if !r.isErr && decide (r.confidence ≥ t) then
      some (annotate t judge ip.1 ip.2.2, r.confidence, r.explanation)
    else none

/-- `results.sort(key=lambda x: x[1], reverse=True)`: stable descending sort. -/
def sortByConfDesc (l : List (Msg × ℚ × String)) : List (Msg × ℚ × String) :=
  l.mergeSort fun a b => decide (a.2.1 ≥ b.2.1)

/-- Write each evaluated candidate's metadata back at its trace position. -/
def applyAnnotations (entries : List Entry) (cands : List (Nat × Msg))
    (judge : Nat → Except String String) (t : ℚ) : List Entry :=
  cands.enum.foldl (fun acc ip => acc.set ip.2.1 ⟨true, annotate t judge ip.1 ip.2.2⟩)
    entries

/-- `message_list.index(msg)` (value equality on the pydantic core fields)
with the loop index as fallback, then the id synthesis of lines 374-376. -/
def originMsgId (mlist : List Msg) (idx : Nat) (m : Msg) : String :=
  let oi := (mlist.findIdx? fun x => x.core = m.core).getD idx
  match m.core.id with
  | some s => if s = "" then "msg_" ++ toString oi else s
  | none => "msg_" ++ toString oi

/-- The `culprit_message_ids` set, as an insertion-ordered deduplicated list. -/
def originCulpritIds (mlist : List Msg) (cands : List (Nat × Msg))
    (judge : Nat → Except String String) (t : ℚ) : List String :=
  cands.enum.foldl
    (fun acc ip =>
      let r := evalMsg judge ip.1 ip.2.2
      if !r.isErr && decide (r.confidence ≥ t) then
        let mid := originMsgId mlist ip.1 ip.2.2
        if acc.contains mid then acc else acc ++ [mid]
      else acc)
    []

/-- Bump a counter in an insertion-ordered association list. -/
def bumpCount (k : String) : List (String × Nat) → List (String × Nat)
  | [] => [(k, 1)]
  | (k', n) :: rest =>
    if k' = k then (k', n + 1) :: rest else (k', n) :: bumpCount k rest

/-- `culprit_components`: component counts over the retained results. -/
def componentCounts (rs : List (Msg × ℚ × String)) : List (String × Nat) :=
  rs.foldl
    (fun acc x => bumpCount ((x.1.metadata.bind (·.component)).getD "Unknown") acc) []

/-- Python `max(..., key=count)` over an insertion-ordered dict: the first
maximal element wins. -/
def argmaxFirst : List (String × Nat) → Option String
  | [] => none
  | (k, n) :: rest =>
    some ((rest.foldl (fun best x => if x.2 > best.2 then x else best) (k, n)).1)

/-- Summary dict of `find_issue_origin` (lines 478-486). -/
structure SummaryO where
  total_messages_checked : Nat
  culprits_found : Nat
  confidence_threshold : ℚ
  culprit_message_ids : List String
  primary_component : Option String
  component_breakdown : List (String × Nat)
  focused_components : Option (List String)
  deriving Repr, DecidableEq

/-- The sorted culprit list of a `find_issue_origin` run. -/
def originResults (entries : List Entry) (useFocus : Bool)
    (classifierResp : Except String String) (maxN : Nat)
    (judge : Nat → Except String String) (t : ℚ) : List (Msg × ℚ × String) :=
  sortByConfDesc
    (originResultsPre (originCandidatesOf entries useFocus classifierResp maxN) judge t)

/-- Summary dict of a `find_issue_origin` run (lines 478-486). -/
def originSummary (entries : List Entry) (useFocus : Bool)
    (classifierResp : Except String String) (maxN : Nat)
    (judge : Nat → Except String String) (t : ℚ) : SummaryO :=
  let bm := baseMessages entries
  let cands := originCandidatesOf entries useFocus classifierResp maxN
  let rs := originResults entries useFocus classifierResp maxN judge t
  let cc := componentCounts rs
  { total_messages_checked := cands.length
    culprits_found := rs.length
    confidence_threshold := t
    culprit_message_ids := originCulpritIds (bm.map (·.2)) cands judge t
    primary_component := argmaxFirst cc
    component_breakdown := cc
    focused_components := relevantComponentsOf useFocus bm.length classifierResp }

/-- `find_issue_origin(trace_data, user_question, llm_model, max_messages_to_check,
confidence_threshold, use_component_focus)`.  `trace = none` models a
`trace_data` that is not a dict with a `'messages'` key; the classifier call
and each per-candidate judge call are black boxes.  Returns the culprit list,
the summary (`none` is the empty dict), and the mutated message list. -/
def find_issue_origin (trace : Option (List Entry))
    (classifierResp : Except String String) (judge : Nat → Except String String)
    (maxN : Nat) (t : ℚ) (useFocus : Bool) :
    Except AError (List (Msg × ℚ × String) × Option SummaryO × List Entry) :=
  match trace with
  | none => .error .invalidInput
  | some entries =>
    if entries.isEmpty then .ok ([], none, entries)
    else if (baseMessages entries).isEmpty then .ok ([], none, entries)
    else if (originCandidatesOf entries useFocus classifierResp maxN).isEmpty then
      .ok ([], none, entries)
    else
      .ok (originResults entries useFocus classifierResp maxN judge t,
        some (originSummary entries useFocus classifierResp maxN judge t),
        applyAnnotations entries (originCandidatesOf entries useFocus classifierResp maxN)
          judge t)

/-! ## Decisive-step search (`find_decisive_error_step`, lines 567-625) -/

/-- A step is in scope iff the responsible component is `'Orchestrator'` and
the step has role `ai`, or the step has role `tool` and its name equals the
responsible component. -/
def inScopeFor (comp : String) (m : Msg) : Bool :=
  (comp = "Orchestrator" && m.core.role == .ai) ||
    (m.core.role == .tool && m.core.name == some comp)

/-- `"Yes" in response.content.splitlines()[0]` — defined only when the
response has at least one line. -/
def firstLineYes (r : String) : Bool :=
  match pySplitlines r with
  | [] => false
  | l0 :: _ => subOccurs "Yes".data l0.data

/-- The scan of `find_decisive_error_step`, instrumented with the list of step
indices for which a judge call was issued.  The judge is keyed by the
chronological step index (its prompt is the transcript prefix up to that
step).  A judge exception propagates; an empty response raises `IndexError`
at `splitlines()[0]`. -/
def findDecisiveAux (judge : Nat → Except String String) (comp : String) :
    List (Nat × Msg) → Except AError (Option (Nat × Msg × String)) × List Nat
  | [] => (.ok none, [])
  | (i, m) :: rest =>
    if inScopeFor comp m then
      match judge i with
      | .error e => (.error (.judgeErr e), [i])
      | .ok resp =>
        match pySplitlines resp with
        | [] => (.error .indexErr, [i])
        | l0 :: _ =>
          if subOccurs "Yes".data l0.data then (.ok (some (i, m, resp)), [i])
          else
            let r := findDecisiveAux judge comp rest
            (r.1, i :: r.2)
    else findDecisiveAux judge comp rest

/-- `find_decisive_error_step(judge_llm, query, log, responsible_component)`:
`ok none` is the Python `None` ("no decisive error") return. -/
def find_decisive_error_step (judge : Nat → Except String String) (log : List Msg)
    (comp : String) : Except AError (Option (Nat × Msg × String)) :=
  (findDecisiveAux judge comp log.enum).1

/-- The judge-call trace of the scan. -/
def findDecisiveCalls (judge : Nat → Except String String) (log : List Msg)
    (comp : String) : List Nat :=
  (findDecisiveAux judge comp log.enum).2

/-- A judge response that parsed to a well-formed non-Yes first line. -/
def okNoYes (judge : Nat → Except String String) (j : Nat) : Prop :=
  ∃ rj, judge j = .ok rj ∧ pySplitlines rj ≠ [] ∧ firstLineYes rj = false

/-! ## `failure_analysis` (lines 627-771) -/

/-- Sanitization of the responsible-component response (line 563):
strip, then delete single and double quotes. -/
def sanitizeComponent (txt : String) : String :=
  ⟨(pyStrip txt).data.filter fun c => c ≠ squote && c ≠ dquote⟩

/-- Field-presence merge `metadata.update(existing_metadata)`: a field present
in the existing dict wins over the freshly built one. -/
def pickField (e b : Option α) : Option α :=
  match e with
  | some v => some v
  | none => b

/-- `metadata.update(existing_metadata)` over the whole record. -/
def mergeExistingWins (em base : Metadata) : Metadata :=
  { is_culprit := pickField em.is_culprit base.is_culprit
    confidence := pickField em.confidence base.confidence
    explanation := pickField em.explanation base.explanation
    component := pickField em.component base.component
    is_failure := pickField em.is_failure base.is_failure
    responsible_component := pickField em.responsible_component base.responsible_component }

/-- The failure explanation string (line 691). -/
def failExpl (comp reason : String) : String :=
  "[FAILURE DETECTED] Decisive error in " ++ comp ++ ". " ++ reason

/-- Metadata write for the decisive-error message (lines 694-714): build the
failure record, then let any pre-existing non-empty metadata dict override it
key-by-key. -/
def decisiveUpdate (comp reason : String) (m : Msg) : Msg :=
  let base : Metadata :=
    { confidence := some 1, explanation := some (failExpl comp reason)
      is_failure := some true, responsible_component := some comp }
  let newMd :=
    match m.metadata with
    | some em => if em.isEmptyDict then base else mergeExistingWins em base
    | none => base
  { m with metadata := some newMd }

/-- The mark-all-others loop (lines 717-741): messages without metadata get a
fresh non-failure record; messages with metadata only gain `is_failure: False`
when that key is absent. -/
def markFailureFlag (m : Msg) : Msg :=
  match m.metadata with
  | none =>
    { m with metadata := some { is_failure := some false, confidence := some 0
                                explanation := some "" } }
  | some md =>
    match md.is_failure with
    | some _ => m
    | none => { m with metadata := some { md with is_failure := some false } }

/-- Summary dict of `failure_analysis` (lines 744-754). -/
structure SummaryF where
  total_messages_checked : Nat
  failures_found : Nat
  confidence_threshold : ℚ
  failure_message_ids : List String
  responsible_component : String
  decisive_error_step_index : Option Nat
  culprits_found : Nat
  culprit_message_ids : List String
  deriving Repr, DecidableEq

/-- `getattr(msg, 'id', None)` with truthiness, for `failure_message_ids`:
only a `BaseMessage` entry with a non-empty id contributes. -/
def failureMsgIds (entries : List Entry) (dec : Option (Nat × Msg × String)) :
    List String :=
  match dec with
  | none => []
  | some (i, _, _) =>
    match entries.get? i with
    | some e =>
      if e.isBase then
        match e.msg.core.id with
        | some s => if s = "" then [] else [s]
        | none => []
      else []
    | none => []

/-- The message list after the decisive-error metadata write (lines 684-714). -/
def failureEntriesAfterDecisive (entries : List Entry) (comp : String)
    (dec : Option (Nat × Msg × String)) : List Entry :=
  match dec with
  | some (i, _, reason) =>
    match entries.get? i with
    | some e => entries.set i ⟨e.isBase, decisiveUpdate comp reason e.msg⟩
    | none => entries
  | none => entries

/-- The message list after both metadata phases of `failure_analysis`. -/
def failureEntriesFinal (entries : List Entry) (comp : String)
    (dec : Option (Nat × Msg × String)) : List Entry :=
  (failureEntriesAfterDecisive entries comp dec).map fun e =>
    ⟨e.isBase, markFailureFlag e.msg⟩

/-- The returned failure tuples (lines 684-692): the decisive message, as it
finally stands, with confidence 1.0 and the tagged explanation. -/
def failureTuples (entries : List Entry) (comp : String)
    (dec : Option (Nat × Msg × String)) : List (Msg × ℚ × String) :=
  match dec with
  | some (i, _, reason) =>
    match (failureEntriesFinal entries comp dec).get? i with
    | some e => [(e.msg, (1 : ℚ), failExpl comp reason)]
    | none => []
  | none => []

/-- Summary dict of a `failure_analysis` run (lines 744-754). -/
def failureSummary (entries : List Entry) (comp : String)
    (dec : Option (Nat × Msg × String)) : SummaryF :=
  { total_messages_checked := entries.length
    failures_found := (failureTuples entries comp dec).length
    confidence_threshold := 1 / 2
    failure_message_ids := failureMsgIds entries dec
    responsible_component := comp
    decisive_error_step_index := dec.map (·.1)
    culprits_found := (failureTuples entries comp dec).length
    culprit_message_ids := failureMsgIds entries dec }

/-- `failure_analysis(result, original_user_query, judge_llm)`.
`respCompResp` is the single responsible-component judge call (its exception
propagates, line 558); `stepJudge` drives the decisive-step scan.  Returns
the failure tuples, the summary (`none` is the empty dict), and the mutated
message list. -/
def failure_analysis (trace : Option (List Entry))
    (respCompResp : Except String String) (stepJudge : Nat → Except String String) :
    Except AError (List (Msg × ℚ × String) × Option SummaryF × List Entry) :=
  match trace with
  | none => .error .invalidInput
  | some entries =>
    if entries.isEmpty then .ok ([], none, entries)
    else
      match respCompResp with
      | .error e => .error (.judgeErr e)
      | .ok txt =>
        match find_decisive_error_step stepJudge (entries.map (·.msg))
            (sanitizeComponent txt) with
        | .error e => .error e
        | .ok dec =>
          .ok (failureTuples entries (sanitizeComponent txt) dec,
            some (failureSummary entries (sanitizeComponent txt) dec),
            failureEntriesFinal entries (sanitizeComponent txt) dec)

/-! ## Result merger (`combine_results`, `src/backend/app.py` lines 249-315) -/

/-- One input tuple `(msg, confidence, explanation)`; `oid` models the CPython
object identity `id(msg)` used as the key fallback. -/
structure CombIn where
  oid : Nat
  msg : Msg
  confidence : ℚ
  explanation : String
  deriving Repr, DecidableEq

/-- `msg_id = getattr(msg, 'id', None) or id(msg)`. -/
def combKey (x : CombIn) : Sum String Nat :=
  match x.msg.core.id with
  | some s => if s = "" then .inr x.oid else .inl s
  | none => .inr x.oid

/-- The per-key accumulator dict value. -/
structure CombEntry where
  message : Msg
  confidence : ℚ
  explanations : List String
  sources : List String
  is_responsible_node : Bool
  is_failure : Bool
  deriving Repr, DecidableEq

/-- One output tuple
`(message, confidence, explanation, sources, is_responsible, is_failure)`. -/
structure CombOut where
  message : Msg
  confidence : ℚ
  explanation : String
  sources : List String
  is_responsible_node : Bool
  is_failure : Bool
  deriving Repr, DecidableEq

/-- Python `max(old, new)`: the first argument wins ties. -/
def pyMax (old new : ℚ) : ℚ := if new > old then new else old

/-- Fresh dict value for a key not yet present (lines 256-264 / 286-294). -/
def blankEntry (x : CombIn) : CombEntry :=
  ⟨x.msg, x.confidence, [], [], false, false⟩

/-- Update for a culprit-search tuple (lines 265-269). -/
def updCulprit (x : CombIn) (d : CombEntry) : CombEntry :=
  let d := { d with explanations := d.explanations ++ ["[Culprit Detection] " ++ x.explanation] }
  let d :=
    if d.sources.contains "Culprit Detection" then d
    else { d with sources := d.sources ++ ["Culprit Detection"] }
  { d with confidence := pyMax d.confidence x.confidence, is_responsible_node := true }

/-- The `is_failure` flag computed for a failure tuple (lines 274-284):
from the message metadata, or from the explanation marker. -/
def failFlag (x : CombIn) : Bool :=
  ((x.msg.metadata.bind (·.is_failure)).getD false) ||
    subOccurs "[FAILURE DETECTED]".data x.explanation.data

/-- Update for a failure-analysis tuple (lines 295-299). -/
def updFailure (x : CombIn) (d : CombEntry) : CombEntry :=
  let d := { d with explanations := d.explanations ++ ["[Error Detection] " ++ x.explanation] }
  let d :=
    if d.sources.contains "Error Detection" then d
    else { d with sources := d.sources ++ ["Error Detection"] }
  { d with confidence := pyMax d.confidence x.confidence, is_failure := failFlag x }

/-- Insert-or-update in the insertion-ordered dict. -/
def dictUpd (k : Sum String Nat) (init : CombEntry) (f : CombEntry → CombEntry) :
    List ((Sum String Nat) × CombEntry) → List ((Sum String Nat) × CombEntry)
  | [] => [(k, f init)]
  | (k', d) :: rest =>
    if k' = k then (k', f d) :: rest else (k', d) :: dictUpd k init f rest

/-- Fold the culprit-search tuples into the dict. -/
def processCulprits (l : List CombIn)
    (dict : List ((Sum String Nat) × CombEntry)) :
    List ((Sum String Nat) × CombEntry) :=
  l.foldl (fun D x => dictUpd (combKey x) (blankEntry x) (updCulprit x) D) dict

/-- Fold the failure-analysis tuples into the dict. -/
def processFailures (l : List CombIn)
    (dict : List ((Sum String Nat) × CombEntry)) :
    List ((Sum String Nat) × CombEntry) :=
  l.foldl (fun D x => dictUpd (combKey x) (blankEntry x) (updFailure x) D) dict

/-- Dict value to output tuple (lines 301-311). -/
def entryToOut (d : CombEntry) : CombOut :=
  ⟨d.message, d.confidence, String.intercalate " | " d.explanations, d.sources,
    d.is_responsible_node, d.is_failure⟩

/-- `b2n` for the boolean sort-key components (`False < True`). -/
def b2n : Bool → Nat
  | false => 0
  | true => 1

/-- The 3-key `(not is_failure, not is_responsible, -confidence)`. -/
def sortKey3 (x : CombOut) : Nat × Nat × ℚ :=
  (b2n (!x.is_failure), b2n (!x.is_responsible_node), -x.confidence)

/-- Lexicographic `≤` on the 3-key. -/
def keyLe3 (a b : Nat × Nat × ℚ) : Bool :=
  decide (a.1 < b.1) ||
    (a.1 == b.1 &&
      (decide (a.2.1 < b.2.1) || (a.2.1 == b.2.1 && decide (a.2.2 ≤ b.2.2))))

/-- The comparator of `combined.sort(key=lambda x: (not x[5], not x[4], -x[1]))`. -/
def combLe (x y : CombOut) : Bool := keyLe3 (sortKey3 x) (sortKey3 y)

/-- `combine_results(culprits_origin, failures)`. -/
def combine_results (A B : List CombIn) : List CombOut :=
  let D := processFailures B (processCulprits A [])
  (D.map fun kd => entryToOut kd.2).mergeSort combLe

/-! ## Spec-side characterization of the merger (for the refinement claim)

These definitions follow the words of the specification (§4.6): they are the
expected shape of a merged entry, to be compared with `combine_results`. -/

/-- Spec: a culprit-only entry — its explanation provenance-tagged, a
single-source provenance list, `is_responsible_node` set. -/
def specSoloA (a : CombIn) : CombOut :=
  ⟨a.msg, a.confidence, "[Culprit Detection] " ++ a.explanation,
    ["Culprit Detection"], true, false⟩

/-- Spec: a failure-only entry. -/
def specSoloB (b : CombIn) : CombOut :=
  ⟨b.msg, b.confidence, "[Error Detection] " ++ b.explanation,
    ["Error Detection"], false, failFlag b⟩

/-- Spec: the single merged entry for an id present in both inputs —
explanations unioned with their provenance tags, provenance-source list the
union, confidence the max, both flags preserved independently. -/
def specMergedAB (a b : CombIn) : CombOut :=
  ⟨a.msg, pyMax a.confidence b.confidence,
    "[Culprit Detection] " ++ a.explanation ++ " | " ++
      ("[Error Detection] " ++ b.explanation),
    ["Culprit Detection", "Error Detection"], true, failFlag b⟩

/-- Spec: merge a culprit entry with its failure partner when one exists. -/
def specMergeA (B : List CombIn) (a : CombIn) : CombOut :=
  match B.find? fun b => combKey b = combKey a with
  | some b => specMergedAB a b
  | none => specSoloA a

/-- Spec: a failure tuple whose id appears in no culprit tuple. -/
def specFresh (A : List CombIn) (b : CombIn) : Bool :=
  !((A.map combKey).contains (combKey b))

/-- The dict entry created for a culprit tuple on a fresh key. -/
def culpritEntry (a : CombIn) : (Sum String Nat) × CombEntry :=
  (combKey a, updCulprit a (blankEntry a))

/-- The dict entry created for a failure tuple on a fresh key. -/
def failureEntry (b : CombIn) : (Sum String Nat) × CombEntry :=
  (combKey b, updFailure b (blankEntry b))

/-- Apply to a dict entry the unique failure tuple matching its key, if any. -/
def applyMatchingB (B : List CombIn) (kd : (Sum String Nat) × CombEntry) :
    (Sum String Nat) × CombEntry :=
  match B.find? fun b => combKey b = kd.1 with
  | some b => (kd.1, updFailure b kd.2)
  | none => kd

/-! ## Concrete sample inputs used by witnesses and counterexamples -/

/-- A human message. -/
def exHuman : Msg :=
  { core := { role := .human, content := "book a room", name := none,
              id := some "h1", tool_calls := [] } }

/-- An `ai` message. -/
def exAi : Msg :=
  { core := { role := .ai, content := "I will check the calendar", name := none,
              id := some "a1", tool_calls := [] } }

/-- A second `ai` message. -/
def exAi2 : Msg :=
  { core := { role := .ai, content := "Final Answer: room 2", name := none,
              id := some "a2", tool_calls := [] } }

/-- A tool message named `check_calendar`. -/
def exTool : Msg :=
  { core := { role := .tool, content := "AVAILABLE", name := some "check_calendar",
              id := some "t1", tool_calls := [] } }

/-- A non-`BaseMessage` (dict-shaped) entry of unknown role. -/
def exJunk : Msg :=
  { core := { role := .unknown, content := "", name := none, id := none,
              tool_calls := [] } }

/-- A three-message sample trace. -/
def exTrace : List Entry := [⟨true, exHuman⟩, ⟨true, exAi⟩, ⟨true, exTool⟩]

/-- A judge response carrying a well-formed JSON verdict with confidence 0.9. -/
def exRespHigh : String :=
  "\x7b\"confidence\": 0.9, \"explanation\": \"this step chose the room\"\x7d"

/-- A judge response carrying a well-formed JSON verdict with confidence 0.2. -/
def exRespLow : String :=
  "\x7b\"confidence\": 0.2, \"explanation\": \"unrelated\"\x7d"

/-- Decidable equality for `Except`, used to evaluate concrete runs. -/
instance instDecEqExcept [DecidableEq ε] [DecidableEq α] : DecidableEq (Except ε α) :=
  fun a b =>
    match a, b with
    | .ok x, .ok y =>
      if h : x = y then isTrue (by rw [h]) else isFalse (by intro hc; cases hc; exact h rfl)
    | .error x, .error y =>
      if h : x = y then isTrue (by rw [h]) else isFalse (by intro hc; cases hc; exact h rfl)
    | .ok _, .error _ => isFalse (by intro hc; cases hc)
    | .error _, .ok _ => isFalse (by intro hc; cases hc)

/-- The derived Boolean equality on combiner keys agrees with propositional equality. -/
instance instLawfulBEqCombKey : LawfulBEq (Sum String Nat) := by
  constructor
  · intro a b h
    cases a with
    | inl x =>
      cases b with
      | inl y =>
        have h2 : (x == y) = true := h
        rw [eq_of_beq h2]
      | inr y => exact Bool.noConfusion (h : false = true)
    | inr x =>
      cases b with
      | inl y => exact Bool.noConfusion (h : false = true)
      | inr y =>
        have h2 : (x == y) = true := h
        rw [eq_of_beq h2]
  · intro a
    cases a with
    | inl x => exact (beq_self_eq_true x : (x == x) = true)
    | inr x => exact (beq_self_eq_true x : (x == x) = true)

/-- A two-message sample trace. -/
def exTrace2 : List Entry := [⟨true, exHuman⟩, ⟨true, exAi⟩]

/-- A judge scripting "Yes" at step 3 and "No" elsewhere. -/
def exJudge3 : Nat → Except String String :=
  fun i => .ok (if i = 3 then "Yes: wrong room" else "No: fine")

/-- A judge raising on its first call and answering confidently afterwards. -/
def exJudgeErr : Nat → Except String String :=
  fun i => if i = 0 then .error "Timeout" else .ok exRespHigh

/-- Project the mutated message list out of an analysis result. -/
def thirdOf (r : Except AError (List (Msg × ℚ × String) × Option α × List Entry)) :
    Option (List Entry) :=
  r.toOption.map (·.2.2)

/-- The one-message trace after a failure pass that flagged nothing:
`is_failure: False` has been recorded on the message. -/
def c1entries : List Entry :=
  [⟨true, { core := exAi.core
            metadata := some { confidence := some 0, explanation := some ""
                               is_failure := some false } }⟩]

/-- The same trace after a subsequent culprit pass over it: the metadata dict
has been replaced wholesale and the `is_failure` key is gone. -/
def c1after : List Entry :=
  [⟨true, { core := exAi.core
            metadata := some { is_culprit := some false, confidence := some 0
                               explanation := some "[Orchestrator] junk"
                               component := some "Orchestrator" } }⟩]

/-- A judge scripting 0.9 for its first call and 0.2 afterwards. -/
def exJudge5 : Nat → Except String String :=
  fun i => .ok (if i = 0 then exRespHigh else exRespLow)

/-- A culprit-search tuple on the human message (id `h1`). -/
def c4a1 : CombIn := ⟨1, exHuman, 7/10, "chose the wrong room"⟩

/-- A failure tuple sharing the human message id `h1`. -/
def c4b1 : CombIn := ⟨1, exHuman, 9/10, "tool error at this step"⟩

/-- A failure tuple on the ai message id `a1`, fresh for the culprit input. -/
def c4b2 : CombIn := ⟨2, exAi, 1/2, "unrelated"⟩

/-- Concrete culprit-search input to the merger. -/
def c4A : List CombIn := [c4a1]

/-- Concrete failure-analysis input to the merger. -/
def c4B : List CombIn := [c4b1, c4b2]

/-! ## Helper lemmas -/

theorem reorderByRel_nil (comps? : Option (List String)) :
    reorderByRel comps? [] = [] := by
  cases comps? <;> simp [reorderByRel]

theorem originCandidatesOf_eq_nil_of_bm (entries : List Entry) (uf : Bool)
    (cr : Except String String) (maxN : Nat) (h : baseMessages entries = []) :
    originCandidatesOf entries uf cr maxN = [] := by
  simp [originCandidatesOf, h, reorderByRel_nil]

/-- A `find_issue_origin` call on a well-formed trace never raises. -/
theorem origin_total (entries : List Entry) (cr : Except String String)
    (judge : Nat → Except String String) (maxN : Nat) (t : ℚ) (uf : Bool) :
    ∃ out, find_issue_origin (some entries) cr judge maxN t uf = .ok out := by
  simp only [find_issue_origin]
  split_ifs <;> exact ⟨_, rfl⟩

/-- Every successful `find_issue_origin` run returns the sorted retained
results and the annotated entries, both computed from the candidate list. -/
theorem origin_ok_components (entries : List Entry) (cr : Except String String)
    (judge : Nat → Except String String) (maxN : Nat) (t : ℚ) (uf : Bool)
    (rs : List (Msg × ℚ × String)) (sm : Option SummaryO) (es : List Entry)
    (h : find_issue_origin (some entries) cr judge maxN t uf = .ok (rs, sm, es)) :
    rs = sortByConfDesc (originResultsPre (originCandidatesOf entries uf cr maxN) judge t) ∧
      es = applyAnnotations entries (originCandidatesOf entries uf cr maxN) judge t := by
  simp only [find_issue_origin] at h
  split_ifs at h with h1 h2 h3
  · have he : entries = [] := List.isEmpty_iff.mp h1
    subst he
    simp only [Except.ok.injEq, Prod.mk.injEq] at h
    obtain ⟨hrs, _, hes⟩ := h
    have hc := originCandidatesOf_eq_nil_of_bm [] uf cr maxN rfl
    refine ⟨?_, ?_⟩ <;>
      simp [← hrs, ← hes, hc, sortByConfDesc, originResultsPre, applyAnnotations]
  · have hc := originCandidatesOf_eq_nil_of_bm entries uf cr maxN
      (List.isEmpty_iff.mp h2)
    simp only [Except.ok.injEq, Prod.mk.injEq] at h
    obtain ⟨hrs, _, hes⟩ := h
    refine ⟨?_, ?_⟩ <;>
      simp [← hrs, ← hes, hc, sortByConfDesc, originResultsPre, applyAnnotations]
  · have hc := List.isEmpty_iff.mp h3
    simp only [Except.ok.injEq, Prod.mk.injEq] at h
    obtain ⟨hrs, _, hes⟩ := h
    refine ⟨?_, ?_⟩ <;>
      simp [← hrs, ← hes, hc, sortByConfDesc, originResultsPre, applyAnnotations]
  · simp only [Except.ok.injEq, Prod.mk.injEq] at h
    obtain ⟨hrs, _, hes⟩ := h
    exact ⟨hrs.symm, hes.symm⟩

/-- The decisive-step scan only fails with a judge exception or `IndexError`,
never with the invalid-input error. -/
theorem findDecisiveAux_ne_invalid (judge : Nat → Except String String)
    (comp : String) (L : List (Nat × Msg)) :
    (findDecisiveAux judge comp L).1 ≠ .error .invalidInput := by
  induction L with
  | nil => simp [findDecisiveAux]
  | cons hd tl ih =>
    obtain ⟨i, m⟩ := hd
    simp only [findDecisiveAux]
    split_ifs with h1
    · cases hj : judge i with
      | error e => simp
      | ok resp =>
        simp only
        cases hs : pySplitlines resp with
        | nil => simp
        | cons l0 rest =>
          simp only
          split_ifs with h2
          · simp
          · simpa using ih
    · exact ih

/-- `baseMessages` is empty iff no entry is a `BaseMessage`. -/
theorem baseMessages_eq_nil_of_no_base (entries : List Entry)
    (h : ∀ e ∈ entries, e.isBase = false) : baseMessages entries = [] := by
  simp only [baseMessages, List.map_eq_nil_iff, List.filter_eq_nil_iff]
  intro pe hpe
  simp [h pe.2 (List.snd_mem_of_mem_enum hpe)]

/-- Membership in the pre-sort retained list. -/
theorem mem_originResultsPre (cands : List (Nat × Msg))
    (judge : Nat → Except String String) (t : ℚ) (x : Msg × ℚ × String) :
    x ∈ originResultsPre cands judge t ↔
      ∃ ip ∈ cands.enum,
        ((evalMsg judge ip.1 ip.2.2).isErr = false ∧
            t ≤ (evalMsg judge ip.1 ip.2.2).confidence) ∧
          x = (annotate t judge ip.1 ip.2.2, (evalMsg judge ip.1 ip.2.2).confidence,
            (evalMsg judge ip.1 ip.2.2).explanation) := by
  simp only [originResultsPre, List.mem_filterMap, Option.ite_none_right_eq_some,
    Bool.and_eq_true, Bool.not_eq_true', decide_eq_true_eq, ge_iff_le,
    Option.some.injEq]
  constructor
  · rintro ⟨ip, hip, ⟨h1, h2⟩, h3⟩
    exact ⟨ip, hip, ⟨h1, h2⟩, h3.symm⟩
  · rintro ⟨ip, hip, ⟨h1, h2⟩, h3⟩
    exact ⟨ip, hip, ⟨h1, h2⟩, h3.symm⟩

/-- Round trip for valid code points. -/
theorem charOfNat_toNat (n : Nat) (h : n < 55296) : (Char.ofNat n).toNat = n := by
  have hv : n.isValidChar := Or.inl h
  rw [Char.ofNat, dif_pos hv]
  rfl

/-- Python `str.lower` never produces an ASCII uppercase letter. -/
theorem lowerChar_not_upper (c : Char) : isUpperAscii (lowerChar c) = false := by
  unfold lowerChar
  split_ifs with h
  · have hr : (Char.ofNat (c.toNat + 32)).toNat = c.toNat + 32 :=
      charOfNat_toNat _ (by omega)
    simp only [isUpperAscii, hr]
    simp only [Bool.and_eq_false_iff, decide_eq_false_iff_not, not_le]
    omega
  · simp only [isUpperAscii, Bool.and_eq_false_iff, decide_eq_false_iff_not, not_le]
    omega

/-- Characters of a `splitCommaAux` part come from the accumulator or input. -/
theorem splitCommaAux_chars (l acc e : List Char) (he : e ∈ splitCommaAux acc l)
    (c : Char) (hc : c ∈ e) : c ∈ acc ∨ c ∈ l := by
  induction l generalizing acc with
  | nil =>
    simp only [splitCommaAux, List.mem_singleton] at he
    subst he
    exact Or.inl (List.mem_reverse.mp hc)
  | cons c0 rest ih =>
    simp only [splitCommaAux] at he
    split_ifs at he with h0
    · rcases List.mem_cons.mp he with he1 | he2
      · subst he1
        exact Or.inl (List.mem_reverse.mp hc)
      · rcases ih [] he2 with h | h
        · exact absurd h (List.not_mem_nil c)
        · exact Or.inr (List.mem_cons_of_mem _ h)
    · rcases ih (c0 :: acc) he with h | h
      · rcases List.mem_cons.mp h with h1 | h2
        · exact Or.inr (h1 ▸ List.mem_cons_self _ _)
        · exact Or.inl h2
      · exact Or.inr (List.mem_cons_of_mem _ h)

/-- Characters survive `pyStripChars` only from the original list. -/
theorem pyStripChars_subset (l : List Char) (c : Char) (hc : c ∈ pyStripChars l) :
    c ∈ l := by
  simp only [pyStripChars, List.mem_reverse] at hc
  have h1 := (List.dropWhile_sublist (l := (l.dropWhile isPySpace).reverse)
    (p := isPySpace)).subset hc
  rw [List.mem_reverse] at h1
  exact (List.dropWhile_sublist (p := isPySpace)).subset h1

/-- Every character of every parsed narrowed-component name is the image of
`lowerChar`, hence never ASCII uppercase. -/
theorem parseCompsResp_no_upper (txt : String) (comps : List String)
    (h : parseCompsResp txt = some comps) (s : String) (hs : s ∈ comps)
    (c : Char) (hc : c ∈ s.data) : isUpperAscii c = false := by
  simp only [parseCompsResp] at h
  split_ifs at h with hall
  have hcomps := Option.some.inj h
  subst hcomps
  obtain ⟨e, he, hse⟩ := List.mem_map.mp hs
  subst hse
  have hc1 : c ∈ e.data := pyStripChars_subset e.data c hc
  obtain ⟨le, hle, hede⟩ := List.mem_map.mp
    (show e ∈ (splitCommaAux [] (lowerStr (pyStrip txt)).data).map (fun l => (⟨l⟩ : String))
      from he)
  have hc2 : c ∈ le := by
    rw [← hede] at hc1
    exact hc1
  rcases splitCommaAux_chars _ [] le hle c hc2 with h | h
  · exact absurd h (List.not_mem_nil c)
  · obtain ⟨d, -, hcd⟩ := List.mem_map.mp h
    rw [← hcd]
    exact lowerChar_not_upper d

/-- Every judge call of the decisive scan is on an in-scope step. -/
theorem findDecisiveAux_calls_inScope (judge : Nat → Except String String)
    (comp : String) :
    ∀ L, ∀ j ∈ (findDecisiveAux judge comp L).2,
      ∃ m, (j, m) ∈ L ∧ inScopeFor comp m = true := by
  intro L
  induction L with
  | nil => simp [findDecisiveAux]
  | cons hd tl ih =>
    obtain ⟨i, m⟩ := hd
    intro j hj
    simp only [findDecisiveAux] at hj
    split_ifs at hj with h1
    · cases hjudge : judge i with
      | error e =>
        rw [hjudge] at hj
        simp only [List.mem_singleton] at hj
        exact ⟨m, by simp [hj], h1⟩
      | ok resp =>
        rw [hjudge] at hj
        simp only at hj
        cases hs : pySplitlines resp with
        | nil =>
          rw [hs] at hj
          simp only [List.mem_singleton] at hj
          exact ⟨m, by simp [hj], h1⟩
        | cons l0 rest =>
          rw [hs] at hj
          simp only at hj
          split_ifs at hj with h2
          · simp only [List.mem_singleton] at hj
            exact ⟨m, by simp [hj], h1⟩
          · rcases List.mem_cons.mp hj with hj1 | hj2
            · exact ⟨m, by simp [hj1], h1⟩
            · obtain ⟨mj, hmem, hsc⟩ := ih j hj2
              exact ⟨mj, List.mem_cons_of_mem _ hmem, hsc⟩
    · obtain ⟨mj, hmem, hsc⟩ := ih j hj
      exact ⟨mj, List.mem_cons_of_mem _ hmem, hsc⟩

/-- Characterization of a successful decisive find: the hit splits the scan
list, every earlier in-scope step answered a well-formed non-Yes, and the
call trace is exactly the earlier in-scope steps plus the hit. -/
theorem findDecisiveAux_ok_some (judge : Nat → Except String String)
    (comp : String) :
    ∀ (L : List (Nat × Msg)) (i : Nat) (m : Msg) (r : String),
    (findDecisiveAux judge comp L).1 = .ok (some (i, m, r)) →
    ∃ L1 L2, L = L1 ++ (i, m) :: L2 ∧
      inScopeFor comp m = true ∧ judge i = .ok r ∧ firstLineYes r = true ∧
      (∀ p ∈ L1, inScopeFor comp p.2 = true → okNoYes judge p.1) ∧
      (findDecisiveAux judge comp L).2
        = (L1.filter fun p => inScopeFor comp p.2).map Prod.fst ++ [i] := by
  intro L
  induction L with
  | nil => intro i m r h; simp [findDecisiveAux] at h
  | cons hd tl ih =>
    obtain ⟨i0, m0⟩ := hd
    intro i m r h
    simp only [findDecisiveAux] at h ⊢
    split_ifs at h with h1
    · cases hjudge : judge i0 with
      | error e => rw [hjudge] at h; simp at h
      | ok resp =>
        rw [hjudge] at h
        simp only at h
        cases hs : pySplitlines resp with
        | nil => rw [hs] at h; simp at h
        | cons l0 rest =>
          rw [hs] at h
          simp only at h
          split_ifs at h with h2
          · simp only [Except.ok.injEq, Option.some.injEq, Prod.mk.injEq] at h
            obtain ⟨hi, hm, hr⟩ := h
            subst hi; subst hr
            refine ⟨[], tl, by simp [hm], by rwa [← hm], hjudge, ?_, by simp, ?_⟩
            · simp [firstLineYes, hs, h2]
            · simp [h1, hjudge, hs, h2]
          · obtain ⟨L1, L2, hL, hsc, hj, hfl, hall, hcalls⟩ := ih i m r h
            refine ⟨(i0, m0) :: L1, L2, by simp [hL], hsc, hj, hfl, ?_, ?_⟩
            · intro p hp hpsc
              rcases List.mem_cons.mp hp with hp1 | hp2
              · subst hp1
                exact ⟨resp, hjudge, by simp [hs], by simp [firstLineYes, hs, h2]⟩
              · exact hall p hp2 hpsc
            · simp [h1, hjudge, hs, h2, hcalls]
    · obtain ⟨L1, L2, hL, hsc, hj, hfl, hall, hcalls⟩ := ih i m r h
      refine ⟨(i0, m0) :: L1, L2, by simp [hL], hsc, hj, hfl, ?_, ?_⟩
      · intro p hp hpsc
        rcases List.mem_cons.mp hp with hp1 | hp2
        · subst hp1
          exact absurd hpsc (by simpa using h1)
        · exact hall p hp2 hpsc
      · simp [h1, hcalls]

/-- When every in-scope step answers a well-formed non-Yes, the scan visits
all of them and reports no decisive error, without raising. -/
theorem findDecisiveAux_ok_none (judge : Nat → Except String String)
    (comp : String) :
    ∀ (L : List (Nat × Msg)),
    (∀ p ∈ L, inScopeFor comp p.2 = true → okNoYes judge p.1) →
    (findDecisiveAux judge comp L).1 = .ok none ∧
      (findDecisiveAux judge comp L).2
        = (L.filter fun p => inScopeFor comp p.2).map Prod.fst := by
  intro L
  induction L with
  | nil => intro _; simp [findDecisiveAux]
  | cons hd tl ih =>
    obtain ⟨i0, m0⟩ := hd
    intro hall
    have htl := ih fun p hp => hall p (List.mem_cons_of_mem _ hp)
    simp only [findDecisiveAux]
    split_ifs with h1
    · obtain ⟨rj, hj, hne, hfl⟩ := hall (i0, m0) (List.mem_cons_self _ _) h1
      rw [hj]
      simp only
      cases hs : pySplitlines rj with
      | nil => exact absurd hs hne
      | cons l0 rest =>
        simp only
        have h2 : subOccurs "Yes".data l0.data = false := by
          simpa [firstLineYes, hs] using hfl
        rw [h2]
        simp only [Bool.false_eq_true, if_false]
        refine ⟨htl.1, ?_⟩
        simp [h1, htl.2]
    · refine ⟨htl.1, ?_⟩
      simp [h1, htl.2]

/-- The annotation fold leaves positions outside the written set untouched. -/
theorem annotFold_get?_ne (judge : Nat → Except String String) (t : ℚ) :
    ∀ (L : List (Nat × (Nat × Msg))) (entries : List Entry) (q : Nat),
    (∀ ip ∈ L, ip.2.1 ≠ q) →
    (L.foldl (fun acc ip => acc.set ip.2.1 ⟨true, annotate t judge ip.1 ip.2.2⟩)
        entries).get? q = entries.get? q := by
  intro L
  induction L with
  | nil => intro entries q _; rfl
  | cons hd tl ih =>
    intro entries q h
    simp only [List.foldl_cons]
    rw [ih _ q fun ip hip => h ip (List.mem_cons_of_mem _ hip)]
    rw [List.get?_eq_getElem?, List.get?_eq_getElem?, List.getElem?_set]
    rw [if_neg (h hd (List.mem_cons_self _ _))]

/-- The annotation fold preserves the length. -/
theorem annotFold_length (judge : Nat → Except String String) (t : ℚ) :
    ∀ (L : List (Nat × (Nat × Msg))) (entries : List Entry),
    (L.foldl (fun acc ip => acc.set ip.2.1 ⟨true, annotate t judge ip.1 ip.2.2⟩)
        entries).length = entries.length := by
  intro L
  induction L with
  | nil => intro entries; rfl
  | cons hd tl ih =>
    intro entries
    simp only [List.foldl_cons]
    rw [ih]
    exact List.length_set ..

/-- The annotation fold writes the evaluation of each listed candidate at its
trace position, provided positions are written at most once. -/
theorem annotFold_get?_hit (judge : Nat → Except String String) (t : ℚ) :
    ∀ (L : List (Nat × (Nat × Msg))) (entries : List Entry) (idx q : Nat) (m : Msg),
    (idx, (q, m)) ∈ L → L.Pairwise (fun a b => a.2.1 ≠ b.2.1) →
    q < entries.length →
    (L.foldl (fun acc ip => acc.set ip.2.1 ⟨true, annotate t judge ip.1 ip.2.2⟩)
        entries).get? q = some ⟨true, annotate t judge idx m⟩ := by
  intro L
  induction L with
  | nil => intro entries idx q m hmem; exact absurd hmem (List.not_mem_nil _)
  | cons hd tl ih =>
    intro entries idx q m hmem hpw hq
    obtain ⟨hhd, htl⟩ := List.pairwise_cons.mp hpw
    rcases List.mem_cons.mp hmem with h1 | h2
    · subst h1
      simp only [List.foldl_cons]
      rw [annotFold_get?_ne judge t tl _ q fun ip hip => (hhd ip hip).symm]
      rw [List.get?_eq_getElem?, List.getElem?_set]
      rw [if_pos rfl, if_pos hq]
    · simp only [List.foldl_cons]
      apply ih _ idx q m h2 htl
      rw [List.length_set]
      exact hq

/-- Candidate trace positions are pairwise distinct. -/
theorem originCandidates_pos_pairwise (entries : List Entry) (uf : Bool)
    (cr : Except String String) (maxN : Nat) :
    (originCandidatesOf entries uf cr maxN).Pairwise fun a b => a.1 ≠ b.1 := by
  have henum : entries.enum.Pairwise fun a b => a.1 ≠ b.1 := by
    have hr : (entries.enum.map Prod.fst).Nodup := by
      rw [List.enum_map_fst]
      exact List.nodup_range _
    exact (List.pairwise_map.mp hr)
  have hbm : (baseMessages entries).Pairwise fun a b => a.1 ≠ b.1 := by
    apply List.pairwise_map.mpr
    exact List.Pairwise.sublist (List.filter_sublist _) henum
  have hrev : (baseMessages entries).reverse.Pairwise fun a b => a.1 ≠ b.1 := by
    rw [List.pairwise_reverse]
    exact List.Pairwise.imp (fun hab => Ne.symm hab) hbm
  have hre : (reorderByRel (relevantComponentsOf uf (baseMessages entries).length cr)
      (baseMessages entries).reverse).Pairwise fun a b => a.1 ≠ b.1 := by
    cases hc : relevantComponentsOf uf (baseMessages entries).length cr with
    | none => simpa [reorderByRel] using hrev
    | some comps =>
      simp only [reorderByRel]
      have hperm := List.filter_append_perm
        (fun pm => isRelevantB comps pm.2) (baseMessages entries).reverse
      exact (hperm.pairwise_iff fun hab => Ne.symm hab).mpr hrev
  exact List.Pairwise.sublist (List.take_sublist _ _) hre

/-- Every candidate records the `BaseMessage` entry at its trace position. -/
theorem mem_originCandidates (entries : List Entry) (uf : Bool)
    (cr : Except String String) (maxN : Nat) :
    ∀ ip ∈ originCandidatesOf entries uf cr maxN,
      entries.get? ip.1 = some ⟨true, ip.2⟩ := by
  intro ip hip
  have h1 : ip ∈ reorderByRel (relevantComponentsOf uf (baseMessages entries).length cr)
      (baseMessages entries).reverse := by
    simp only [originCandidatesOf] at hip
    exact (List.take_sublist _ _).subset hip
  have h2 : ip ∈ baseMessages entries := by
    rw [← List.mem_reverse]
    cases hc : relevantComponentsOf uf (baseMessages entries).length cr with
    | none => rw [hc] at h1; simpa [reorderByRel] using h1
    | some comps =>
      rw [hc] at h1
      simp only [reorderByRel] at h1
      rcases List.mem_append.mp h1 with h | h
      · exact List.mem_of_mem_filter h
      · exact List.mem_of_mem_filter h
  simp only [baseMessages, List.mem_map, List.mem_filter] at h2
  obtain ⟨⟨p, e⟩, ⟨hmem, hbase⟩, heq⟩ := h2
  obtain ⟨hlt, hval⟩ := List.mem_enum hmem
  obtain ⟨q, msg⟩ := ip
  simp only [Prod.mk.injEq] at heq
  obtain ⟨hq, hmsg⟩ := heq
  subst hq
  subst hmsg
  simp only at hlt hval hbase ⊢
  rw [List.get?_eq_getElem?, List.getElem?_eq_getElem hlt, ← hval]
  cases e with
  | mk b m0 =>
    simp only at hbase ⊢
    rw [hbase]

/-- Split an `enum` at a known position. -/
theorem enum_split_at (log : List Msg) (i : Nat) (m : Msg)
    (h : log.get? i = some m) :
    ∃ L1 L2, log.enum = L1 ++ (i, m) :: L2 ∧
      (∀ p ∈ L1, p.1 < i ∧ log.get? p.1 = some p.2) := by
  have hlt : i < log.length := by
    rw [List.get?_eq_getElem?] at h
    by_contra hc
    rw [List.getElem?_eq_none (by omega)] at h
    exact Option.noConfusion h
  have hval : log[i] = m := by
    rw [List.get?_eq_getElem?, List.getElem?_eq_getElem hlt] at h
    exact Option.some.inj h
  have hlen : i < log.enum.length := by simpa using hlt
  refine ⟨log.enum.take i, log.enum.drop (i + 1), ?_, ?_⟩
  · conv_lhs => rw [← List.take_append_drop i log.enum]
    rw [List.drop_eq_getElem_cons hlen, List.getElem_enum, hval]
  · intro p hp
    obtain ⟨k, hk, hpk⟩ := List.mem_iff_getElem.mp hp
    have hk2 : k < i := by
      have := hk
      rw [List.length_take] at this
      omega
    have hk3 : k < log.enum.length := by omega
    rw [List.getElem_take] at hpk
    rw [List.getElem_enum] at hpk
    have hk4 : k < log.length := by simpa using hk3
    constructor
    · rw [← hpk]
      exact hk2
    · rw [← hpk]
      simp only
      rw [List.get?_eq_getElem?, List.getElem?_eq_getElem hk4]

/-- A judge exception on the first in-scope step not preceded by a decisive
"Yes" propagates out of the scan. -/
theorem findDecisiveAux_error_prop (judge : Nat → Except String String)
    (comp : String) (e : String) :
    ∀ (L1 : List (Nat × Msg)) (i : Nat) (m : Msg) (L2 : List (Nat × Msg)),
    (∀ p ∈ L1, inScopeFor comp p.2 = true → okNoYes judge p.1) →
    inScopeFor comp m = true → judge i = .error e →
    (findDecisiveAux judge comp (L1 ++ (i, m) :: L2)).1 = .error (.judgeErr e) := by
  intro L1
  induction L1 with
  | nil =>
    intro i m L2 _ hsc hj
    simp only [List.nil_append, findDecisiveAux, hsc, if_true, hj]
  | cons hd tl ih =>
    intro i m L2 hall hsc hj
    obtain ⟨j0, m0⟩ := hd
    simp only [List.cons_append, findDecisiveAux]
    split_ifs with h1
    · obtain ⟨rj, hjr, hne, hfl⟩ := hall (j0, m0) (List.mem_cons_self _ _) h1
      rw [hjr]
      simp only
      cases hs : pySplitlines rj with
      | nil => exact absurd hs hne
      | cons l0 rest =>
        simp only
        have h2 : subOccurs "Yes".data l0.data = false := by
          simpa [firstLineYes, hs] using hfl
        rw [h2]
        simp only [Bool.false_eq_true, if_false]
        exact ih i m L2 (fun p hp => hall p (List.mem_cons_of_mem _ hp)) hsc hj
    · exact ih i m L2 (fun p hp => hall p (List.mem_cons_of_mem _ hp)) hsc hj

/-- A decomposition of an `enum` pins the split position and bounds the
indices of the prefix. -/
theorem enum_decomposition (log : List Msg) (L1 L2 : List (Nat × Msg)) (i : Nat)
    (m : Msg) (hL : log.enum = L1 ++ (i, m) :: L2) :
    i = L1.length ∧ (∀ p ∈ L1, p.1 < L1.length) ∧ log.get? i = some m := by
  have hlt : L1.length < log.length := by
    have := congrArg List.length hL
    simp at this
    omega
  have hmid : log.enum[L1.length]? = some (i, m) := by
    rw [hL, List.getElem?_append_right (le_refl _)]
    simp
  rw [List.getElem?_enum] at hmid
  rw [List.getElem?_eq_getElem hlt] at hmid
  simp only [Option.map, Option.some.injEq, Prod.mk.injEq] at hmid
  obtain ⟨hi, hm⟩ := hmid
  refine ⟨hi.symm, ?_, ?_⟩
  · intro p hp
    obtain ⟨k, hk, hpk⟩ := List.mem_iff_getElem.mp hp
    have h1 : log.enum[k]? = some p := by
      rw [hL, List.getElem?_append_left hk, List.getElem?_eq_getElem hk, hpk]
    rw [List.getElem?_enum] at h1
    have hk2 : k < log.length := by omega
    rw [List.getElem?_eq_getElem hk2] at h1
    simp only [Option.map, Option.some.injEq] at h1
    rw [← h1]
    exact hk
  · rw [List.get?_eq_getElem?, ← hi, List.getElem?_eq_getElem hlt, hm]

/-- Annotation only touches the metadata slot. -/
theorem annotate_core (t : ℚ) (judge : Nat → Except String String) (idx : Nat)
    (m : Msg) : (annotate t judge idx m).core = m.core := rfl

/-- The decisive-error metadata write only touches the metadata slot. -/
theorem decisiveUpdate_core (comp reason : String) (m : Msg) :
    (decisiveUpdate comp reason m).core = m.core := rfl

/-- The mark-others pass only touches the metadata slot. -/
theorem markFailureFlag_core (m : Msg) : (markFailureFlag m).core = m.core := by
  rcases hm : m.metadata with - | md
  · simp [markFailureFlag, hm]
  · rcases hf : md.is_failure with - | b <;> simp [markFailureFlag, hm, hf]

/-- The candidate position pairs, enumerated, write pairwise-distinct
positions. -/
theorem pairwise_enum_snd {α : Type} {R : α → α → Prop} {l : List α}
    (h : l.Pairwise R) : l.enum.Pairwise fun a b => R a.2 b.2 := by
  apply (@List.pairwise_map (Nat × α) α Prod.snd R l.enum).mp
  rw [List.enum_map_snd]
  exact h

theorem originCandidates_enum_pairwise (entries : List Entry) (uf : Bool)
    (cr : Except String String) (maxN : Nat) :
    (originCandidatesOf entries uf cr maxN).enum.Pairwise
      fun a b => a.2.1 ≠ b.2.1 := by
  exact pairwise_enum_snd (originCandidates_pos_pairwise entries uf cr maxN)

/-- The message-shape of the trace after `find_issue_origin`'s annotation. -/
theorem applyAnnotations_shape (entries : List Entry) (uf : Bool)
    (cr : Except String String) (maxN : Nat)
    (judge : Nat → Except String String) (t : ℚ) :
    (applyAnnotations entries (originCandidatesOf entries uf cr maxN) judge t).map
        (fun en => (en.isBase, en.msg.core))
      = entries.map fun en => (en.isBase, en.msg.core) := by
  set cands := originCandidatesOf entries uf cr maxN with hcands
  apply List.ext_getElem?
  intro q
  rw [List.getElem?_map, List.getElem?_map]
  by_cases hq : ∃ ip ∈ cands, ip.1 = q
  · obtain ⟨⟨q', m⟩, hmem, hq'⟩ := hq
    simp only at hq'
    subst hq'
    obtain ⟨idx, hidx, hval⟩ := List.mem_iff_getElem.mp hmem
    have henum : (idx, (q', m)) ∈ cands.enum := by
      have h2 : idx < cands.enum.length := by simpa using hidx
      have h3 := List.getElem_mem h2
      rw [List.getElem_enum, hval] at h3
      exact h3
    have hgq := mem_originCandidates entries uf cr maxN (q', m) hmem
    simp only at hgq
    have hqlt : q' < entries.length := by
      rw [List.get?_eq_getElem?] at hgq
      by_contra hc
      rw [List.getElem?_eq_none (by omega)] at hgq
      exact Option.noConfusion hgq
    have hhit := annotFold_get?_hit judge t cands.enum entries idx q' m henum
      (originCandidates_enum_pairwise entries uf cr maxN) hqlt
    rw [List.get?_eq_getElem?] at hhit hgq
    rw [show applyAnnotations entries cands judge t
        = cands.enum.foldl
          (fun acc ip => acc.set ip.2.1 ⟨true, annotate t judge ip.1 ip.2.2⟩)
          entries from rfl]
    rw [hhit, hgq]
    rfl
  · push_neg at hq
    have hfr := annotFold_get?_ne judge t cands.enum entries q fun ip hip =>
      hq ip.2 (List.snd_mem_of_mem_enum hip)
    rw [List.get?_eq_getElem?, List.get?_eq_getElem?] at hfr
    rw [show applyAnnotations entries cands judge t
        = cands.enum.foldl
          (fun acc ip => acc.set ip.2.1 ⟨true, annotate t judge ip.1 ip.2.2⟩)
          entries from rfl]
    rw [hfr]

/-- The message-shape of the trace after `failure_analysis`'s two metadata
phases. -/
theorem failureEntriesFinal_shape (entries : List Entry) (comp : String)
    (dec : Option (Nat × Msg × String)) :
    (failureEntriesFinal entries comp dec).map (fun en => (en.isBase, en.msg.core))
      = entries.map fun en => (en.isBase, en.msg.core) := by
  have h1 : (failureEntriesAfterDecisive entries comp dec).map
      (fun en => (en.isBase, en.msg.core))
      = entries.map fun en => (en.isBase, en.msg.core) := by
    rcases dec with - | ⟨i, mm, reason⟩
    · rfl
    · simp only [failureEntriesAfterDecisive]
      rcases hg : entries.get? i with - | e
      · rfl
      · apply List.ext_getElem?
        intro q
        rw [List.getElem?_map, List.getElem?_map, List.getElem?_set]
        by_cases hiq : i = q
        · subst hiq
          have hlt : i < entries.length := by
            rw [List.get?_eq_getElem?] at hg
            by_contra hc
            rw [List.getElem?_eq_none (by omega)] at hg
            exact Option.noConfusion hg
          rw [if_pos rfl, if_pos hlt]
          rw [List.get?_eq_getElem?, List.getElem?_eq_getElem hlt] at hg
          rw [List.getElem?_eq_getElem hlt, ← Option.some.inj hg]
          rfl
        · rw [if_neg hiq]
  calc (failureEntriesFinal entries comp dec).map (fun en => (en.isBase, en.msg.core))
      = (failureEntriesAfterDecisive entries comp dec).map
          fun en => (en.isBase, en.msg.core) := by
        rw [failureEntriesFinal, List.map_map]
        apply List.map_congr_left
        intro e _
        simp [Function.comp, markFailureFlag_core]
    _ = entries.map fun en => (en.isBase, en.msg.core) := h1

/-! ## Merger dict lemmas -/

/-- Inserting a fresh key appends. -/
theorem dictUpd_fresh (k : Sum String Nat) (init : CombEntry)
    (f : CombEntry → CombEntry) :
    ∀ (D : List ((Sum String Nat) × CombEntry)), (∀ kd ∈ D, kd.1 ≠ k) →
    dictUpd k init f D = D ++ [(k, f init)] := by
  intro D
  induction D with
  | nil => intro _; rfl
  | cons hd tl ih =>
    intro h
    obtain ⟨k', d⟩ := hd
    simp only [dictUpd]
    rw [if_neg (h (k', d) (List.mem_cons_self _ _)),
      ih fun kd hkd => h kd (List.mem_cons_of_mem _ hkd)]
    rfl

/-- Updating an existing key leaves the key list unchanged. -/
theorem dictUpd_keys_of_mem (k : Sum String Nat) (init : CombEntry)
    (f : CombEntry → CombEntry) :
    ∀ (D : List ((Sum String Nat) × CombEntry)), k ∈ D.map Prod.fst →
    (dictUpd k init f D).map Prod.fst = D.map Prod.fst := by
  intro D
  induction D with
  | nil => intro h; exact absurd h (List.not_mem_nil k)
  | cons hd tl ih =>
    intro h
    obtain ⟨k', d⟩ := hd
    by_cases hk : k' = k
    · simp [dictUpd, hk]
    · have h2 : k ∈ tl.map Prod.fst := by
        rcases List.mem_cons.mp h with h1 | h1
        · exact absurd h1.symm hk
        · exact h1
      simp [dictUpd, hk, ih h2]

/-- Updating a key present in a duplicate-free dict rewrites exactly its
entry. -/
theorem dictUpd_hit (k : Sum String Nat) (init : CombEntry)
    (f : CombEntry → CombEntry) :
    ∀ (D : List ((Sum String Nat) × CombEntry)), (D.map Prod.fst).Nodup →
    k ∈ D.map Prod.fst →
    dictUpd k init f D
      = D.map fun kd => if kd.1 = k then (kd.1, f kd.2) else kd := by
  intro D
  induction D with
  | nil => intro _ h; exact absurd h (List.not_mem_nil k)
  | cons hd tl ih =>
    intro hn hm
    obtain ⟨k', d⟩ := hd
    simp only [List.map_cons, List.nodup_cons] at hn
    by_cases hk : k' = k
    · subst hk
      have htl : ∀ kd ∈ tl, kd.1 ≠ k' := by
        intro kd hkd hc
        exact hn.1 (hc ▸ List.mem_map_of_mem Prod.fst hkd)
      have htleq : tl.map (fun kd => if kd.1 = k' then (kd.1, f kd.2) else kd)
          = tl := by
        rw [show tl.map (fun kd => if kd.1 = k' then (kd.1, f kd.2) else kd)
            = tl.map id from List.map_congr_left fun kd hkd => by
              rw [if_neg (htl kd hkd)]; rfl]
        exact List.map_id tl
      simp [dictUpd, htleq]
    · have h2 : k ∈ tl.map Prod.fst := by
        rcases List.mem_cons.mp hm with h1 | h1
        · exact absurd h1.symm hk
        · exact h1
      simp only [dictUpd, if_neg hk, List.map_cons, if_neg hk]
      congr 1
      exact ih hn.2 h2

/-- Folding culprit tuples with fresh, pairwise-distinct keys appends their
entries in order. -/
theorem processCulprits_fresh :
    ∀ (A : List CombIn) (D : List ((Sum String Nat) × CombEntry)),
    (A.map combKey).Nodup → (∀ a ∈ A, ∀ kd ∈ D, kd.1 ≠ combKey a) →
    processCulprits A D = D ++ A.map culpritEntry := by
  intro A
  induction A with
  | nil => intro D _ _; simp [processCulprits]
  | cons a A' ih =>
    intro D hn hdisj
    have hak : combKey a ∉ A'.map combKey := by
      simp only [List.map_cons, List.nodup_cons] at hn
      exact hn.1
    have hn' : (A'.map combKey).Nodup := by
      simp only [List.map_cons, List.nodup_cons] at hn
      exact hn.2
    have h1 : dictUpd (combKey a) (blankEntry a) (updCulprit a) D
        = D ++ [culpritEntry a] :=
      dictUpd_fresh _ _ _ D fun kd hkd => hdisj a (List.mem_cons_self _ _) kd hkd
    show processCulprits A' (dictUpd (combKey a) (blankEntry a) (updCulprit a) D)
      = D ++ (a :: A').map culpritEntry
    rw [h1, ih (D ++ [culpritEntry a]) hn' ?_]
    · simp
    · intro a' ha' kd hkd
      rcases List.mem_append.mp hkd with h | h
      · exact hdisj a' (List.mem_cons_of_mem _ ha') kd h
      · simp only [List.mem_singleton] at h
        subst h
        intro hc
        have hc2 : combKey a = combKey a' := hc
        exact hak (by rw [hc2]; exact List.mem_map_of_mem combKey ha')

/-- Characterization of folding failure tuples into a duplicate-free dict:
existing entries are updated in place by their unique matching tuple, fresh
tuples are appended in input order. -/
theorem processFailures_char :
    ∀ (B : List CombIn) (D : List ((Sum String Nat) × CombEntry)),
    (D.map Prod.fst).Nodup → (B.map combKey).Nodup →
    processFailures B D
      = D.map (applyMatchingB B)
        ++ (B.filter fun b => !((D.map Prod.fst).contains (combKey b))).map
            failureEntry := by
  intro B
  induction B with
  | nil =>
    intro D _ _
    simp only [processFailures, List.foldl_nil, List.filter_nil, List.map_nil,
      List.append_nil]
    rw [show D.map (applyMatchingB []) = D.map id from
      List.map_congr_left fun kd _ => by simp [applyMatchingB], List.map_id]
  | cons b B' ih =>
    intro D hD hB
    have hBk : combKey b ∉ B'.map combKey := by
      simp only [List.map_cons, List.nodup_cons] at hB
      exact hB.1
    have hB' : (B'.map combKey).Nodup := by
      simp only [List.map_cons, List.nodup_cons] at hB
      exact hB.2
    have hfindB' : ∀ (k : Sum String Nat), k = combKey b →
        B'.find? (fun b' => combKey b' = k) = none := by
      intro k hk
      apply List.find?_eq_none.mpr
      intro b' hb'
      simp only [decide_eq_true_eq]
      subst hk
      intro hc
      exact hBk (by rw [← hc]; exact List.mem_map_of_mem combKey hb')
    rcases Classical.em (combKey b ∈ D.map Prod.fst) with hm | hm
    · have h1 := dictUpd_hit (combKey b) (blankEntry b) (updFailure b) D hD hm
      have hkeys : ((D.map fun kd =>
          if kd.1 = combKey b then (kd.1, updFailure b kd.2) else kd).map Prod.fst)
          = D.map Prod.fst := by
        rw [List.map_map]
        apply List.map_congr_left
        intro kd _
        by_cases hk : kd.1 = combKey b <;> simp [Function.comp, hk]
      show processFailures B' (dictUpd (combKey b) (blankEntry b) (updFailure b) D)
        = _
      rw [h1, ih _ (by rw [hkeys]; exact hD) hB']
      congr 1
      · rw [List.map_map]
        apply List.map_congr_left
        intro kd _
        by_cases hk : kd.1 = combKey b
        · simp only [Function.comp_apply, if_pos hk]
          simp only [applyMatchingB, hfindB' kd.1 hk]
          rw [List.find?_cons_of_pos B' (by simp [hk])]
        · simp only [Function.comp_apply, if_neg hk]
          simp only [applyMatchingB]
          rw [List.find?_cons_of_neg B' (by
            simp only [decide_eq_true_eq]
            exact fun hc => hk hc.symm)]
      · rw [hkeys, List.filter_cons]
        have hc : ((D.map Prod.fst).contains (combKey b)) = true := by
          simp only [List.contains_eq_any_beq, List.any_eq_true]
          exact ⟨combKey b, hm, by simp⟩
        rw [hc]
        simp
    · have hfreshD : ∀ kd ∈ D, kd.1 ≠ combKey b := by
        intro kd hkd hc
        exact hm (by rw [← hc]; exact List.mem_map_of_mem Prod.fst hkd)
      have h1 := dictUpd_fresh (combKey b) (blankEntry b) (updFailure b) D hfreshD
      show processFailures B' (dictUpd (combKey b) (blankEntry b) (updFailure b) D)
        = _
      rw [h1]
      have hkeys2 : ((D ++ [failureEntry b]).map Prod.fst)
          = D.map Prod.fst ++ [combKey b] := by
        simp [failureEntry]
      have hnd2 : (((D ++ [failureEntry b]).map Prod.fst)).Nodup := by
        rw [hkeys2, List.nodup_append]
        refine ⟨hD, List.nodup_singleton _, ?_⟩
        intro k hk1 hk2
        simp only [List.mem_singleton] at hk2
        exact hm (hk2 ▸ hk1)
      show processFailures B' (D ++ [failureEntry b]) = _
      rw [ih (D ++ [failureEntry b]) hnd2 hB']
      rw [List.map_append]
      have hfe : [failureEntry b].map (applyMatchingB B') = [failureEntry b] := by
        simp only [List.map_cons, List.map_nil]
        simp only [applyMatchingB, failureEntry]
        rw [hfindB' _ rfl]
      have hD2 : D.map (applyMatchingB B') = D.map (applyMatchingB (b :: B')) := by
        apply List.map_congr_left
        intro kd hkd
        simp only [applyMatchingB]
        rw [List.find?_cons_of_neg B' (by simp [(hfreshD kd hkd).symm])]
      have hflt : B'.filter
            (fun b' => !(((D ++ [failureEntry b]).map Prod.fst).contains (combKey b')))
          = B'.filter fun b' => !((D.map Prod.fst).contains (combKey b')) := by
        apply List.filter_congr
        intro b' hb'
        rw [hkeys2]
        have hne : combKey b' ≠ combKey b := by
          intro hc
          exact hBk (by rw [← hc]; exact List.mem_map_of_mem combKey hb')
        simp [hne]
      rw [hfe, hD2, hflt, List.filter_cons]
      have hcb : ((D.map Prod.fst).contains (combKey b)) = false := by
        simp only [List.contains_eq_any_beq]
        rw [List.any_eq_false]
        intro k hk
        simp only [beq_iff_eq]
        intro hc
        exact hm (hc ▸ hk)
      rw [hcb]
      simp

/-- The 3-key comparator is transitive. -/
theorem keyLe3_trans (a b c : Nat × Nat × ℚ)
    (h1 : keyLe3 a b = true) (h2 : keyLe3 b c = true) : keyLe3 a c = true := by
  obtain ⟨a1, a2, a3⟩ := a
  obtain ⟨b1, b2, b3⟩ := b
  obtain ⟨c1, c2, c3⟩ := c
  simp only [keyLe3, Bool.or_eq_true, Bool.and_eq_true, decide_eq_true_eq,
    beq_iff_eq] at h1 h2 ⊢
  rcases h1 with h1 | ⟨h1e, h1r⟩
  · rcases h2 with h2 | ⟨h2e, _⟩
    · exact Or.inl (h1.trans h2)
    · exact Or.inl (h2e ▸ h1)
  · rcases h2 with h2 | ⟨h2e, h2r⟩
    · exact Or.inl (h1e ▸ h2)
    · refine Or.inr ⟨h1e.trans h2e, ?_⟩
      rcases h1r with h1r | ⟨h1e2, h1q⟩
      · rcases h2r with h2r | ⟨h2e2, _⟩
        · exact Or.inl (h1r.trans h2r)
        · exact Or.inl (h2e2 ▸ h1r)
      · rcases h2r with h2r | ⟨h2e2, h2q⟩
        · exact Or.inl (h1e2 ▸ h2r)
        · exact Or.inr ⟨h1e2.trans h2e2, le_trans h1q h2q⟩

/-- The 3-key comparator is total. -/
theorem keyLe3_total (a b : Nat × Nat × ℚ) : (keyLe3 a b || keyLe3 b a) = true := by
  obtain ⟨a1, a2, a3⟩ := a
  obtain ⟨b1, b2, b3⟩ := b
  simp only [keyLe3, Bool.or_eq_true, Bool.and_eq_true, decide_eq_true_eq,
    beq_iff_eq]
  rcases lt_trichotomy a1 b1 with h | h | h
  · exact Or.inl (Or.inl h)
  · rcases lt_trichotomy a2 b2 with h2 | h2 | h2
    · exact Or.inl (Or.inr ⟨h, Or.inl h2⟩)
    · rcases le_total a3 b3 with h3 | h3
      · exact Or.inl (Or.inr ⟨h, Or.inr ⟨h2, h3⟩⟩)
      · exact Or.inr (Or.inr ⟨h.symm, Or.inr ⟨h2.symm, h3⟩⟩)
    · exact Or.inr (Or.inr ⟨h.symm, Or.inl h2⟩)
  · exact Or.inr (Or.inl h)

/-- The culprit entry for a key also hit by a failure tuple maps to the
spec-side merged output. -/
theorem entryToOut_applyMatchingB (B : List CombIn) (a : CombIn) :
    entryToOut (applyMatchingB B (culpritEntry a)).2 = specMergeA B a := by
  simp only [applyMatchingB, culpritEntry, specMergeA]
  cases hf : B.find? fun b => decide (combKey b = combKey a) with
  | none =>
    simp only [entryToOut, updCulprit, blankEntry, specSoloA, pyMax]
    simp [String.intercalate, String.intercalate.go]
  | some b =>
    simp only [entryToOut, updFailure, updCulprit, blankEntry, specMergedAB, pyMax]
    simp [String.intercalate, String.intercalate.go]

/-- The dict entry for a fresh failure tuple maps to the spec-side
failure-only output. -/
theorem entryToOut_failureEntry (b : CombIn) :
    entryToOut (failureEntry b).2 = specSoloB b := by
  simp only [failureEntry, entryToOut, updFailure, blankEntry, specSoloB, pyMax]
  simp [String.intercalate, String.intercalate.go]

/-- Under duplicate-free keys, `find?` on the key of a member returns exactly
that member. -/
theorem findB_key_unique :
    ∀ (B : List CombIn), (B.map combKey).Nodup →
    ∀ b ∈ B, ∀ (k : Sum String Nat), combKey b = k →
    B.find? (fun b' => decide (combKey b' = k)) = some b := by
  intro B
  induction B with
  | nil => intro _ b hb; exact absurd hb (List.not_mem_nil b)
  | cons b0 B' ih =>
    intro hn b hb k hk
    simp only [List.map_cons, List.nodup_cons] at hn
    rcases List.mem_cons.mp hb with hb0 | hb'
    · subst hb0
      exact List.find?_cons_of_pos B' (by simp [hk])
    · have hne : combKey b0 ≠ k := by
        intro hc
        exact hn.1 (by
          rw [hc, ← hk]
          exact List.mem_map_of_mem combKey hb')
      rw [List.find?_cons_of_neg B' (by simp [hne])]
      exact ih hn.2 b hb' k hk

/-- The unsorted entry list of the merger dict is the spec-described
multiset: each culprit tuple merged with its matching failure tuple, then the
fresh failure tuples in input order. -/
theorem combine_pre_sort (A B : List CombIn)
    (hA : (A.map combKey).Nodup) (hB : (B.map combKey).Nodup) :
    ((processFailures B (processCulprits A [])).map fun kd => entryToOut kd.2)
      = A.map (specMergeA B) ++ (B.filter (specFresh A)).map specSoloB := by
  have h1 : processCulprits A [] = A.map culpritEntry := by
    rw [processCulprits_fresh A [] hA fun a _ kd hkd =>
      absurd hkd (List.not_mem_nil kd)]
    rfl
  have hkeys : (A.map culpritEntry).map Prod.fst = A.map combKey := by
    rw [List.map_map]
    rfl
  have h2 := processFailures_char B (A.map culpritEntry)
    (by rw [hkeys]; exact hA) hB
  rw [h1, h2, List.map_append]
  congr 1
  · rw [List.map_map, List.map_map]
    apply List.map_congr_left
    intro a _
    exact entryToOut_applyMatchingB B a
  · rw [List.map_map]
    have hpred : B.filter
          (fun b => !(((A.map culpritEntry).map Prod.fst).contains (combKey b)))
        = B.filter (specFresh A) := by
      apply List.filter_congr
      intro b _
      rw [hkeys]
      rfl
    rw [hpred]
    apply List.map_congr_left
    intro b _
    exact entryToOut_failureEntry b

/-! ## Claim C8 -/

/-- C8: `find_issue_origin` and `failure_analysis` raise the invalid-input
error exactly when the trace is not a dict containing a `'messages'` key,
and both return an empty result list and an empty summary dict on a trace
with zero analyzable messages (for `find_issue_origin`: no `BaseMessage`
entries at all; for `failure_analysis`: an empty message list). -/
theorem c8_invalid_and_empty :
    (∀ (trace : Option (List Entry)) (cr : Except String String)
        (judge : Nat → Except String String) (maxN : Nat) (t : ℚ) (uf : Bool),
      find_issue_origin trace cr judge maxN t uf = .error .invalidInput ↔ trace = none) ∧
    (∀ (trace : Option (List Entry)) (rc : Except String String)
        (sj : Nat → Except String String),
      failure_analysis trace rc sj = .error .invalidInput ↔ trace = none) ∧
    (∀ (cr : Except String String) (judge : Nat → Except String String)
        (maxN : Nat) (t : ℚ) (uf : Bool),
      find_issue_origin (some []) cr judge maxN t uf = .ok ([], none, [])) ∧
    (∀ (entries : List Entry) (cr : Except String String)
        (judge : Nat → Except String String) (maxN : Nat) (t : ℚ) (uf : Bool),
      (∀ e ∈ entries, e.isBase = false) →
      find_issue_origin (some entries) cr judge maxN t uf = .ok ([], none, entries)) ∧
    (∀ (rc : Except String String) (sj : Nat → Except String String),
      failure_analysis (some []) rc sj = .ok ([], none, [])) := by
  refine ⟨?_, ?_, ?_, ?_, ?_⟩
  · intro trace cr judge maxN t uf
    constructor
    · intro h
      cases trace with
      | none => rfl
      | some entries =>
        obtain ⟨out, hout⟩ := origin_total entries cr judge maxN t uf
        rw [hout] at h
        exact absurd h (by simp)
    · rintro rfl
      rfl
  · intro trace rc sj
    constructor
    · intro h
      cases trace with
      | none => rfl
      | some entries =>
        exfalso
        by_cases h1 : entries.isEmpty
        · simp [failure_analysis, h1] at h
        · simp only [failure_analysis, h1, if_false, Bool.false_eq_true] at h
          cases rc with
          | error e => simp at h
          | ok txt =>
            simp only at h
            cases hd : find_decisive_error_step sj (entries.map (·.msg))
                (sanitizeComponent txt) with
            | error e =>
              rw [hd] at h
              simp only [Except.error.injEq] at h
              have hne := findDecisiveAux_ne_invalid sj (sanitizeComponent txt)
                (entries.map (·.msg)).enum
              simp only [find_decisive_error_step] at hd
              rw [h] at hd
              exact hne hd
            | ok dec =>
              rw [hd] at h
              simp at h
    · rintro rfl
      rfl
  · intro cr judge maxN t uf
    rfl
  · intro entries cr judge maxN t uf h
    by_cases h1 : entries.isEmpty
    · have := List.isEmpty_iff.mp h1
      subst this
      rfl
    · have hbm := baseMessages_eq_nil_of_no_base entries h
      simp [find_issue_origin, h1, hbm]
  · intro rc sj
    rfl

/-- C8 witness: the conjuncts applied at concrete inputs — an invalid trace,
an empty trace, and a trace whose only entry is not a `BaseMessage`. -/
theorem c8_invalid_and_empty_witness :
    (find_issue_origin none (.ok "all") (fun _ => .ok exRespHigh) 20 (1/2) true
      = .error .invalidInput) ∧
    (failure_analysis (some [⟨false, exJunk⟩]) (.ok "x") (fun _ => .ok "No")
        = .error .invalidInput ↔ False) ∧
    (find_issue_origin (some [⟨false, exJunk⟩]) (.ok "all") (fun _ => .ok exRespHigh)
      20 (1/2) true = .ok ([], none, [⟨false, exJunk⟩])) ∧
    (failure_analysis (some []) (.ok "x") (fun _ => .ok "No") = .ok ([], none, [])) := by
  refine ⟨?_, ?_, ?_, ?_⟩
  · exact (c8_invalid_and_empty.1 none (.ok "all") (fun _ => .ok exRespHigh)
      20 (1/2) true).mpr rfl
  · rw [c8_invalid_and_empty.2.1 (some [⟨false, exJunk⟩]) (.ok "x") (fun _ => .ok "No")]
    simp
  · exact c8_invalid_and_empty.2.2.2.1 [⟨false, exJunk⟩] (.ok "all")
      (fun _ => .ok exRespHigh) 20 (1/2) true (by decide)
  · exact c8_invalid_and_empty.2.2.2.2 (.ok "x") (fun _ => .ok "No")

/-! ## Claim C5 -/

/-- C5: in `find_issue_origin`, an evaluated candidate whose judge call was
parsed successfully appears in the returned culprit list iff its parsed
confidence is at least `confidence_threshold`; hence every returned culprit
tuple carries a confidence at least the threshold. -/
theorem c5_retained_iff_threshold :
    ∀ (entries : List Entry) (cr : Except String String)
      (judge : Nat → Except String String) (maxN : Nat) (t : ℚ) (uf : Bool)
      (rs : List (Msg × ℚ × String)) (sm : Option SummaryO) (es : List Entry),
    find_issue_origin (some entries) cr judge maxN t uf = .ok (rs, sm, es) →
    (∀ x ∈ rs, t ≤ x.2.1) ∧
    (∀ (idx : Nat) (h : idx < (originCandidatesOf entries uf cr maxN).length),
      (evalMsg judge idx ((originCandidatesOf entries uf cr maxN).get ⟨idx, h⟩).2).isErr
          = false →
      ((annotate t judge idx ((originCandidatesOf entries uf cr maxN).get ⟨idx, h⟩).2,
          (evalMsg judge idx ((originCandidatesOf entries uf cr maxN).get ⟨idx, h⟩).2).confidence,
          (evalMsg judge idx ((originCandidatesOf entries uf cr maxN).get ⟨idx, h⟩).2).explanation)
          ∈ rs ↔
        t ≤ (evalMsg judge idx
          ((originCandidatesOf entries uf cr maxN).get ⟨idx, h⟩).2).confidence)) := by
  intro entries cr judge maxN t uf rs sm es hok
  obtain ⟨hrs, -⟩ := origin_ok_components entries cr judge maxN t uf rs sm es hok
  have hmem : ∀ x, x ∈ rs ↔ x ∈ originResultsPre (originCandidatesOf entries uf cr maxN)
      judge t := by
    intro x
    rw [hrs]
    exact List.mem_mergeSort
  constructor
  · intro x hx
    obtain ⟨ip, -, ⟨-, hconf⟩, hx'⟩ := (mem_originResultsPre _ judge t x).mp
      ((hmem x).mp hx)
    rw [hx']
    exact hconf
  · intro idx h hne
    set cands := originCandidatesOf entries uf cr maxN with hc
    constructor
    · intro hin
      obtain ⟨ip, -, ⟨-, hconf⟩, hx'⟩ := (mem_originResultsPre _ judge t _).mp
        ((hmem _).mp hin)
      have : (evalMsg judge idx (cands.get ⟨idx, h⟩).2).confidence
          = (evalMsg judge ip.1 ip.2.2).confidence := by
        have := congrArg (fun y => y.2.1) hx'
        simpa using this
      rw [this]
      exact hconf
    · intro hconf
      apply (hmem _).mpr
      apply (mem_originResultsPre _ judge t _).mpr
      refine ⟨(idx, cands.get ⟨idx, h⟩), ?_, ⟨hne, hconf⟩, ?_⟩
      · have h2 : idx < cands.enum.length := by simpa using h
        have h3 := List.getElem_mem h2
        rw [List.getElem_enum] at h3
        simpa using h3
      · rfl

/-- C5 witness: in a concrete two-message run at threshold 0.5, the candidate
whose judge call parsed to confidence 0.9 is in the returned culprit list. -/
theorem c5_retained_iff_threshold_witness :
    (annotate (1/2) exJudge5 0
        ((originCandidatesOf exTrace2 true (.ok "all") 20).get ⟨0, by decide⟩).2,
      (evalMsg exJudge5 0
        ((originCandidatesOf exTrace2 true (.ok "all") 20).get ⟨0, by decide⟩).2).confidence,
      (evalMsg exJudge5 0
        ((originCandidatesOf exTrace2 true (.ok "all") 20).get ⟨0, by decide⟩).2).explanation)
      ∈ originResults exTrace2 true (.ok "all") 20 exJudge5 (1/2) := by
  have h := c5_retained_iff_threshold exTrace2 (.ok "all") exJudge5 20 (1/2) true
    (originResults exTrace2 true (.ok "all") 20 exJudge5 (1/2))
    (some (originSummary exTrace2 true (.ok "all") 20 exJudge5 (1/2)))
    (applyAnnotations exTrace2 (originCandidatesOf exTrace2 true (.ok "all") 20)
      exJudge5 (1/2)) rfl
  exact (h.2 0 (by decide) (by with_unfolding_all decide)).mpr
    (by with_unfolding_all decide)

/-! ## Claim C6 -/

/-- C6: for the same trace, narrowing outcome and judge responses, and any two
thresholds `t1 < t2`, the culprits retained at `t2` are a subset of the
culprits retained at `t1`. -/
theorem c6_threshold_monotone :
    ∀ (entries : List Entry) (cr : Except String String)
      (judge : Nat → Except String String) (maxN : Nat) (uf : Bool)
      (t1 t2 : ℚ) (rs1 rs2 : List (Msg × ℚ × String))
      (sm1 sm2 : Option SummaryO) (es1 es2 : List Entry),
    t1 < t2 →
    find_issue_origin (some entries) cr judge maxN t1 uf = .ok (rs1, sm1, es1) →
    find_issue_origin (some entries) cr judge maxN t2 uf = .ok (rs2, sm2, es2) →
    ∀ x ∈ rs2, x ∈ rs1 := by
  intro entries cr judge maxN uf t1 t2 rs1 rs2 sm1 sm2 es1 es2 hlt hok1 hok2 x hx
  obtain ⟨h1, -⟩ := origin_ok_components entries cr judge maxN t1 uf rs1 sm1 es1 hok1
  obtain ⟨h2, -⟩ := origin_ok_components entries cr judge maxN t2 uf rs2 sm2 es2 hok2
  rw [h2, sortByConfDesc] at hx
  rw [h1, sortByConfDesc]
  apply List.mem_mergeSort.mpr
  obtain ⟨ip, hip, ⟨hne, hconf⟩, hxv⟩ :=
    (mem_originResultsPre _ judge t2 x).mp (List.mem_mergeSort.mp hx)
  apply (mem_originResultsPre _ judge t1 x).mpr
  refine ⟨ip, hip, ⟨hne, le_trans (le_of_lt hlt) hconf⟩, ?_⟩
  rw [hxv]
  have hmeta : evalMeta t1 (evalMsg judge ip.1 ip.2.2)
      = evalMeta t2 (evalMsg judge ip.1 ip.2.2) := by
    simp only [evalMeta, hne, Bool.not_false, Bool.true_and, ge_iff_le]
    rw [decide_eq_true (le_trans (le_of_lt hlt) hconf), decide_eq_true hconf]
  simp only [annotate, hmeta]

/-- C6 witness: the 0.9-confidence culprit retained at threshold 0.9 is also
retained at threshold 0.5. -/
theorem c6_threshold_monotone_witness :
    (annotate (9/10) exJudge5 0
        ((originCandidatesOf exTrace2 true (.ok "all") 20).get ⟨0, by decide⟩).2,
      (evalMsg exJudge5 0
        ((originCandidatesOf exTrace2 true (.ok "all") 20).get ⟨0, by decide⟩).2).confidence,
      (evalMsg exJudge5 0
        ((originCandidatesOf exTrace2 true (.ok "all") 20).get ⟨0, by decide⟩).2).explanation)
      ∈ originResults exTrace2 true (.ok "all") 20 exJudge5 (1/2) := by
  apply c6_threshold_monotone exTrace2 (.ok "all") exJudge5 20 true (1/2) (9/10)
    (originResults exTrace2 true (.ok "all") 20 exJudge5 (1/2))
    (originResults exTrace2 true (.ok "all") 20 exJudge5 (9/10))
    (some (originSummary exTrace2 true (.ok "all") 20 exJudge5 (1/2)))
    (some (originSummary exTrace2 true (.ok "all") 20 exJudge5 (9/10)))
    (applyAnnotations exTrace2 (originCandidatesOf exTrace2 true (.ok "all") 20)
      exJudge5 (1/2))
    (applyAnnotations exTrace2 (originCandidatesOf exTrace2 true (.ok "all") 20)
      exJudge5 (9/10))
    (by with_unfolding_all norm_num) rfl rfl
  with_unfolding_all decide

/-! ## Claim C7 -/

/-- C7: when narrowing is active, the candidate list before truncation is the
stable two-partition reordering of the reversed message list — relevant
components first, the rest after, each partition a sublist (order preserving)
of the reversed list — and a permutation of it (nothing discarded); only the
`take max_messages_to_check` truncation is applied afterwards. -/
theorem c7_priority_reordering :
    ∀ (entries : List Entry) (uf : Bool) (cr : Except String String) (maxN : Nat)
      (comps : List String),
    relevantComponentsOf uf (baseMessages entries).length cr = some comps →
    (originCandidatesOf entries uf cr maxN
      = ((baseMessages entries).reverse.filter (fun pm => isRelevantB comps pm.2) ++
          (baseMessages entries).reverse.filter
            (fun pm => !isRelevantB comps pm.2)).take maxN) ∧
    ((baseMessages entries).reverse.filter (fun pm => isRelevantB comps pm.2) ++
        (baseMessages entries).reverse.filter (fun pm => !isRelevantB comps pm.2)).Perm
      (baseMessages entries).reverse ∧
    ((baseMessages entries).reverse.filter (fun pm => isRelevantB comps pm.2)).Sublist
      (baseMessages entries).reverse ∧
    ((baseMessages entries).reverse.filter (fun pm => !isRelevantB comps pm.2)).Sublist
      (baseMessages entries).reverse := by
  intro entries uf cr maxN comps h
  refine ⟨?_, ?_, ?_, ?_⟩
  · simp [originCandidatesOf, h, reorderByRel]
  · exact List.filter_append_perm _ _
  · exact List.filter_sublist _
  · exact List.filter_sublist _

/-- C7 witness: a four-message trace with the classifier narrowing to
`check_calendar`; the reordering equation and the permutation hold there. -/
theorem c7_priority_reordering_witness :
    originCandidatesOf [⟨true, exHuman⟩, ⟨true, exAi⟩, ⟨true, exTool⟩, ⟨true, exAi2⟩]
        true (.ok "check_calendar") 20
      = (((baseMessages [⟨true, exHuman⟩, ⟨true, exAi⟩, ⟨true, exTool⟩, ⟨true, exAi2⟩]).reverse.filter
            (fun pm => isRelevantB ["check_calendar"] pm.2) ++
          (baseMessages [⟨true, exHuman⟩, ⟨true, exAi⟩, ⟨true, exTool⟩, ⟨true, exAi2⟩]).reverse.filter
            (fun pm => !isRelevantB ["check_calendar"] pm.2)).take 20) := by
  exact (c7_priority_reordering
    [⟨true, exHuman⟩, ⟨true, exAi⟩, ⟨true, exTool⟩, ⟨true, exAi2⟩] true
    (.ok "check_calendar") 20 ["check_calendar"] (by with_unfolding_all decide)).1

/-! ## Claim C10 -/

/-- An active narrowed component set comes from `parseCompsResp`. -/
theorem relevantComponentsOf_inv (uf : Bool) (n : Nat) (cr : Except String String)
    (comps : List String) (h : relevantComponentsOf uf n cr = some comps) :
    ∃ txt, cr = .ok txt ∧ parseCompsResp txt = some comps := by
  unfold relevantComponentsOf at h
  split_ifs at h with h1
  cases cr with
  | error e => exact absurd h (by simp)
  | ok txt => exact ⟨txt, rfl, h⟩

/-- C10: when component narrowing is active, an `ai`-role message is never in
the prioritized partition: the classifier response is lower-cased before it is
split into component names, while `ai` messages are matched under the exact
string `'Orchestrator'`, whose `'O'` no lower-cased name can contain; likewise
any tool whose name has an ASCII uppercase letter is never prioritized. -/
theorem c10_ai_never_prioritized :
    ∀ (uf : Bool) (n : Nat) (cr : Except String String) (comps : List String),
    relevantComponentsOf uf n cr = some comps →
    (∀ m : Msg, m.core.role = .ai → isRelevantB comps m = false) ∧
    (∀ (m : Msg) (nm : String), m.core.role = .tool → m.core.name = some nm →
      (∃ c ∈ nm.data, isUpperAscii c = true) → isRelevantB comps m = false) := by
  intro uf n cr comps h
  obtain ⟨txt, -, hp⟩ := relevantComponentsOf_inv uf n cr comps h
  have hchars := parseCompsResp_no_upper txt comps hp
  constructor
  · intro m hai
    simp only [isRelevantB, truthyComponent, componentOfMsg, hai]
    simp only [show ("Orchestrator" : String) = "" ↔ False by simp, if_false,
      reduceIte]
    cases hcon : comps.contains "Orchestrator" with
    | false => rfl
    | true =>
      exfalso
      have hmem : "Orchestrator" ∈ comps := by simpa using hcon
      have := hchars "Orchestrator" hmem 'O' (by decide)
      exact absurd this (by decide)
  · intro m nm htool hname hup
    obtain ⟨c, hcm, hcu⟩ := hup
    simp only [isRelevantB, truthyComponent, componentOfMsg, htool, hname]
    split_ifs with hemp
    · rfl
    · cases hcon : comps.contains nm with
      | false => simpa using hcon
      | true =>
        exfalso
        have hmem : nm ∈ comps := by simpa using hcon
        have := hchars nm hmem c hcm
        rw [hcu] at this
        exact Bool.noConfusion this

/-! ## Claim C3 -/

/-- C3 (amended): the decisive-step search walks the trace chronologically and
issues judge calls only for in-scope steps; if it succeeds it returns the
first in-scope step whose response's first line contains `"Yes"`, with no
judge call on any step after it; and, provided every consulted response
arrives without exception and with at least one line, a scan with no
first-line `"Yes"` — in particular one over an empty in-scope set — returns
the no-decisive-error outcome `ok none` without raising.  (The unamended
claim fails on responses with empty content, which raise `IndexError`.) -/
theorem c3_decisive_scan :
    ∀ (judge : Nat → Except String String) (log : List Msg) (comp : String),
    (∀ j ∈ findDecisiveCalls judge log comp,
      ∃ mj, log.get? j = some mj ∧ inScopeFor comp mj = true) ∧
    (∀ (i : Nat) (m : Msg) (r : String),
      find_decisive_error_step judge log comp = .ok (some (i, m, r)) →
      log.get? i = some m ∧ inScopeFor comp m = true ∧ judge i = .ok r ∧
        firstLineYes r = true ∧
        (∀ (j : Nat) (mj : Msg), j < i → log.get? j = some mj →
          inScopeFor comp mj = true → okNoYes judge j) ∧
        (∀ j ∈ findDecisiveCalls judge log comp, j ≤ i)) ∧
    ((∀ (j : Nat) (mj : Msg), log.get? j = some mj → inScopeFor comp mj = true →
        okNoYes judge j) →
      find_decisive_error_step judge log comp = .ok none) := by
  intro judge log comp
  refine ⟨?_, ?_, ?_⟩
  · intro j hj
    obtain ⟨mj, hmem, hsc⟩ :=
      findDecisiveAux_calls_inScope judge comp log.enum j hj
    obtain ⟨hlt, hval⟩ := List.mem_enum hmem
    refine ⟨mj, ?_, hsc⟩
    rw [List.get?_eq_getElem?, List.getElem?_eq_getElem hlt, hval]
  · intro i m r h
    obtain ⟨L1, L2, hL, hsc, hj, hfl, hall, hcalls⟩ :=
      findDecisiveAux_ok_some judge comp log.enum i m r h
    obtain ⟨hi, hpre, hget⟩ := enum_decomposition log L1 L2 i m hL
    refine ⟨hget, hsc, hj, hfl, ?_, ?_⟩
    · intro j mj hlt hgj hscj
      have hjlen : j < L1.length := by omega
      have hjval : log.get? j = some mj := hgj
      have hjlog : j < log.length ∧ log[j]? = some mj := by
        rw [List.get?_eq_getElem?] at hjval
        exact ⟨by
          by_contra hc
          rw [List.getElem?_eq_none (by omega)] at hjval
          exact Option.noConfusion hjval, hjval⟩
      have henum : log.enum[j]? = some (j, mj) := by
        rw [List.getElem?_enum, hjlog.2]
        rfl
      have hL1 : L1[j]? = some (j, mj) := by
        rw [hL] at henum
        rwa [List.getElem?_append_left hjlen] at henum
      have hmem : (j, mj) ∈ L1 := List.getElem?_mem hL1
      exact hall (j, mj) hmem hscj
    · intro j hjc
      rw [show findDecisiveCalls judge log comp
          = (findDecisiveAux judge comp log.enum).2 from rfl, hcalls] at hjc
      rcases List.mem_append.mp hjc with hjl | hjr
      · obtain ⟨p, hp, hpj⟩ := List.mem_map.mp hjl
        have hpL1 := List.mem_of_mem_filter hp
        have := hpre p hpL1
        omega
      · simp only [List.mem_singleton] at hjr
        omega
  · intro hall
    apply (findDecisiveAux_ok_none judge comp log.enum ?_).1
    intro p hp hsc
    obtain ⟨hlt, hval⟩ := List.mem_enum (show (p.1, p.2) ∈ log.enum from hp)
    apply hall p.1 p.2 ?_ hsc
    rw [List.get?_eq_getElem?, List.getElem?_eq_getElem hlt, hval]

/-- C3 counterexample: with an in-scope step whose judge response is the empty
string, no step answers "Yes", yet the search raises `IndexError` at
`splitlines()[0]` instead of returning the no-decisive-error outcome. -/
theorem c3_decisive_scan_counterexample :
    find_decisive_error_step (fun _ => .ok "") [exTool] "check_calendar"
        = .error .indexErr ∧
      find_decisive_error_step (fun _ => .ok "") [exTool] "check_calendar"
        ≠ .ok none := by
  constructor
  · with_unfolding_all decide
  · with_unfolding_all decide

/-- C3 witness: a three-step trace where the judge says "No" at step 1 and
"Yes" at step 3; the scan returns step 3 as the decisive step, and only the
two in-scope `ai` steps were consulted. -/
theorem c3_decisive_scan_witness :
    find_decisive_error_step exJudge3 [exHuman, exAi, exTool, exAi2] "Orchestrator"
      = .ok (some (3, exAi2, "Yes: wrong room")) ∧
    ([exHuman, exAi, exTool, exAi2].get? 3 = some exAi2 ∧
      inScopeFor "Orchestrator" exAi2 = true ∧
      exJudge3 3 = Except.ok "Yes: wrong room" ∧
      firstLineYes "Yes: wrong room" = true) := by
  have h := (c3_decisive_scan exJudge3
    [exHuman, exAi, exTool, exAi2] "Orchestrator").2.1 3 exAi2 "Yes: wrong room"
    (by with_unfolding_all decide)
  exact ⟨by with_unfolding_all decide, h.1, h.2.1, h.2.2.1, h.2.2.2.1⟩

/-- C10 witness: with the classifier answering `Orchestrator, check_calendar`,
the narrowed set is lower-cased, and the `ai` sample message is not
prioritized. -/
theorem c10_ai_never_prioritized_witness :
    isRelevantB ["orchestrator", "check_calendar"] exAi = false := by
  exact (c10_ai_never_prioritized true 4 (.ok "Orchestrator, check_calendar")
    ["orchestrator", "check_calendar"] (by with_unfolding_all decide)).1 exAi rfl

/-- Metadata record eta for a present `is_failure` key. -/
theorem metadata_eta_is_failure (md : Metadata) (b : Bool)
    (h : md.is_failure = some b) : { md with is_failure := some b } = md := by
  cases md
  simp_all

/-- Message record eta for a present metadata slot. -/
theorem msg_eta_metadata (m : Msg) (md : Metadata) (h : m.metadata = some md) :
    { m with metadata := some md } = m := by
  cases m
  simp_all

/-! ## Claim C1 -/

/-- C1 (amended): in the pass order stated by the claim — culprit search, then
failure analysis over the same trace — the later pass preserves the metadata
fields written by the earlier pass: a message the failure pass does not flag
keeps its pass-1 `is_culprit`, `confidence`, `explanation` and `component`
fields intact and only gains `is_failure: False` (when that key was absent).
(The unamended claim, quantifying over both pass orders, fails: a culprit
pass run after a failure pass replaces the metadata dict wholesale.) -/
theorem c1_cumulative_amended :
    ∀ (entries : List Entry) (cr : Except String String)
      (judge : Nat → Except String String) (maxN : Nat) (t : ℚ) (uf : Bool)
      (rs : List (Msg × ℚ × String)) (sm : Option SummaryO) (es1 : List Entry)
      (txt : String) (sj : Nat → Except String String)
      (fs : List (Msg × ℚ × String)) (sf : Option SummaryF) (es2 : List Entry)
      (dec : Option (Nat × Msg × String)) (p : Nat) (en : Entry) (md : Metadata),
    find_issue_origin (some entries) cr judge maxN t uf = .ok (rs, sm, es1) →
    failure_analysis (some es1) (.ok txt) sj = .ok (fs, sf, es2) →
    find_decisive_error_step sj (es1.map (·.msg)) (sanitizeComponent txt)
      = .ok dec →
    dec.map (·.1) ≠ some p →
    es1.get? p = some en → en.msg.metadata = some md →
    es2.get? p = some ⟨en.isBase,
      { en.msg with
        metadata := some ({ md with
          is_failure := some (md.is_failure.getD false) }) }⟩ := by
  intro entries cr judge maxN t uf rs sm es1 txt sj fs sf es2 dec p en md
    hok1 hok2 hdec hp hget hmd
  have hne : es1.isEmpty = false := by
    cases es1 with
    | nil => rw [List.get?_eq_getElem?] at hget; simp at hget
    | cons hd tl => rfl
  simp only [failure_analysis, hne, Bool.false_eq_true, if_false] at hok2
  rw [hdec] at hok2
  simp only [Except.ok.injEq, Prod.mk.injEq] at hok2
  have hes2 : es2 = failureEntriesFinal es1 (sanitizeComponent txt) dec :=
    hok2.2.2.symm
  have hafter : (failureEntriesAfterDecisive es1 (sanitizeComponent txt) dec).get? p
      = some en := by
    rcases dec with - | ⟨i, mm, reason⟩
    · exact hget
    · have hip : i ≠ p := by
        intro hc
        subst hc
        exact hp rfl
      simp only [failureEntriesAfterDecisive]
      rcases hgi : es1.get? i with - | e
      · exact hget
      · rw [List.get?_eq_getElem?, List.getElem?_set, if_neg hip]
        rw [List.get?_eq_getElem?] at hget
        exact hget
  rw [hes2]
  show (List.map _ (failureEntriesAfterDecisive es1 (sanitizeComponent txt) dec)).get? p
      = _
  rw [List.get?_eq_getElem?, List.getElem?_map]
  rw [List.get?_eq_getElem?] at hafter
  rw [hafter]
  simp only [Option.map, Option.some.injEq]
  rcases hf : md.is_failure with - | b
  · simp only [markFailureFlag, hmd, hf]
    rfl
  · simp only [markFailureFlag, hmd, hf, Option.getD_some]
    rw [metadata_eta_is_failure md b hf, msg_eta_metadata en.msg md hmd]

/-- C1 counterexample: run the failure pass first (it records
`is_failure: False` on the message), then the culprit pass over the same
trace: the later pass replaces `_culprit_metadata` wholesale and the
`is_failure` field written by the earlier pass is gone — the later pass does
not merge via field-presence check. -/
theorem c1_cumulative_counterexample :
    thirdOf (failure_analysis (some [⟨true, exAi⟩]) (.ok "nobody")
        (fun _ => .ok "No")) = some c1entries ∧
    ((c1entries.get? 0).map fun e => e.msg.metadata.map (·.is_failure))
      = some (some (some false)) ∧
    thirdOf (find_issue_origin (some c1entries) (.ok "all") (fun _ => .ok "junk")
        20 (1/2) false) = some c1after ∧
    ((c1after.get? 0).map fun e => e.msg.metadata.map (·.is_failure))
      = some (some none) := by
  refine ⟨?_, ?_, ?_, ?_⟩ <;> with_unfolding_all decide

/-- C1 witness: a concrete culprit-then-failure round trip in which the
failure pass flags nothing; the pass-1 fields survive and `is_failure: False`
is added. -/
theorem c1_cumulative_amended_witness :
    (failureEntriesFinal
        (applyAnnotations exTrace2 (originCandidatesOf exTrace2 true (.ok "all") 20)
          exJudge5 (1/2)) (sanitizeComponent "nobody") none).get? 0
      = some ⟨true,
          { annotate (1/2) exJudge5 1 exHuman with
            metadata := some ({ evalMeta (1/2) (evalMsg exJudge5 1 exHuman) with
              is_failure := some
                ((evalMeta (1/2) (evalMsg exJudge5 1 exHuman)).is_failure.getD
                  false) }) }⟩ := by
  have h := c1_cumulative_amended exTrace2 (.ok "all") exJudge5 20 (1/2) true
    (originResults exTrace2 true (.ok "all") 20 exJudge5 (1/2))
    (some (originSummary exTrace2 true (.ok "all") 20 exJudge5 (1/2)))
    (applyAnnotations exTrace2 (originCandidatesOf exTrace2 true (.ok "all") 20)
      exJudge5 (1/2))
    "nobody" (fun _ => .ok "No")
    (failureTuples
      (applyAnnotations exTrace2 (originCandidatesOf exTrace2 true (.ok "all") 20)
        exJudge5 (1/2)) (sanitizeComponent "nobody") none)
    (some (failureSummary
      (applyAnnotations exTrace2 (originCandidatesOf exTrace2 true (.ok "all") 20)
        exJudge5 (1/2)) (sanitizeComponent "nobody") none))
    (failureEntriesFinal
      (applyAnnotations exTrace2 (originCandidatesOf exTrace2 true (.ok "all") 20)
        exJudge5 (1/2)) (sanitizeComponent "nobody") none)
    none 0 ⟨true, annotate (1/2) exJudge5 1 exHuman⟩
    (evalMeta (1/2) (evalMsg exJudge5 1 exHuman))
    rfl (by with_unfolding_all rfl) (by with_unfolding_all decide)
    (by simp) (by with_unfolding_all decide) rfl
  exact h

/-! ## Claim C2 -/

/-- C2 (amended): in the culprit search, any judge exception during a
single-step evaluation is recovered locally — the call never raises, the
failing step is annotated as a zero-confidence, error-annotated non-culprit,
and every other candidate step is still evaluated.  In the decisive-step
search, by contrast, a judge exception propagates out of the analysis call.
(The unamended claim asserted local recovery for both searches alike.) -/
theorem c2_judge_error_recovery :
    (∀ (entries : List Entry) (cr : Except String String)
        (judge : Nat → Except String String) (maxN : Nat) (t : ℚ) (uf : Bool),
      ∃ out, find_issue_origin (some entries) cr judge maxN t uf = .ok out) ∧
    (∀ (entries : List Entry) (cr : Except String String)
        (judge : Nat → Except String String) (maxN : Nat) (t : ℚ) (uf : Bool)
        (rs : List (Msg × ℚ × String)) (sm : Option SummaryO) (es : List Entry)
        (idx : Nat) (h : idx < (originCandidatesOf entries uf cr maxN).length)
        (e : String),
      find_issue_origin (some entries) cr judge maxN t uf = .ok (rs, sm, es) →
      judge idx = .error e →
      es.get? ((originCandidatesOf entries uf cr maxN).get ⟨idx, h⟩).1
        = some ⟨true,
            { core := ((originCandidatesOf entries uf cr maxN).get ⟨idx, h⟩).2.core
              metadata := some
                { is_culprit := some false, confidence := some 0
                  explanation := some ("Error during evaluation: " ++ e)
                  component := some
                    (msgComponentOr
                      ((originCandidatesOf entries uf cr maxN).get ⟨idx, h⟩).2) } }⟩) ∧
    (∀ (entries : List Entry) (cr : Except String String)
        (judge : Nat → Except String String) (maxN : Nat) (t : ℚ) (uf : Bool)
        (rs : List (Msg × ℚ × String)) (sm : Option SummaryO) (es : List Entry)
        (idx : Nat) (h : idx < (originCandidatesOf entries uf cr maxN).length),
      find_issue_origin (some entries) cr judge maxN t uf = .ok (rs, sm, es) →
      es.get? ((originCandidatesOf entries uf cr maxN).get ⟨idx, h⟩).1
        = some ⟨true, annotate t judge idx
            ((originCandidatesOf entries uf cr maxN).get ⟨idx, h⟩).2⟩) ∧
    (∀ (judge : Nat → Except String String) (log : List Msg) (comp : String)
        (i : Nat) (m : Msg) (e : String),
      log.get? i = some m → inScopeFor comp m = true → judge i = .error e →
      (∀ j mj, j < i → log.get? j = some mj → inScopeFor comp mj = true →
        okNoYes judge j) →
      find_decisive_error_step judge log comp = .error (.judgeErr e)) := by
  have hc : ∀ (entries : List Entry) (cr : Except String String)
      (judge : Nat → Except String String) (maxN : Nat) (t : ℚ) (uf : Bool)
      (rs : List (Msg × ℚ × String)) (sm : Option SummaryO) (es : List Entry)
      (idx : Nat) (h : idx < (originCandidatesOf entries uf cr maxN).length),
      find_issue_origin (some entries) cr judge maxN t uf = .ok (rs, sm, es) →
      es.get? ((originCandidatesOf entries uf cr maxN).get ⟨idx, h⟩).1
        = some ⟨true, annotate t judge idx
            ((originCandidatesOf entries uf cr maxN).get ⟨idx, h⟩).2⟩ := by
    intro entries cr judge maxN t uf rs sm es idx h hok
    obtain ⟨-, hes⟩ := origin_ok_components entries cr judge maxN t uf rs sm es hok
    set cands := originCandidatesOf entries uf cr maxN with hcands
    have hmem : cands.get ⟨idx, h⟩ ∈ cands := List.get_mem cands idx h
    have henum : (idx, cands.get ⟨idx, h⟩) ∈ cands.enum := by
      have h2 : idx < cands.enum.length := by simpa using h
      have h3 := List.getElem_mem h2
      rw [List.getElem_enum] at h3
      simpa using h3
    have hgq := mem_originCandidates entries uf cr maxN _ hmem
    have hqlt : (cands.get ⟨idx, h⟩).1 < entries.length := by
      rw [List.get?_eq_getElem?] at hgq
      by_contra hcon
      rw [List.getElem?_eq_none (by omega)] at hgq
      exact Option.noConfusion hgq
    rw [hes]
    exact annotFold_get?_hit judge t cands.enum entries idx _ _ henum
      (originCandidates_enum_pairwise entries uf cr maxN) hqlt
  refine ⟨?_, ?_, hc, ?_⟩
  · intro entries cr judge maxN t uf
    exact origin_total entries cr judge maxN t uf
  · intro entries cr judge maxN t uf rs sm es idx h e hok hj
    rw [hc entries cr judge maxN t uf rs sm es idx h hok]
    simp only [annotate, evalMeta, evalMsg, hj]
    rfl
  · intro judge log comp i m e hget hsc hj hall
    obtain ⟨L1, L2, hL, hpre⟩ := enum_split_at log i m hget
    rw [show find_decisive_error_step judge log comp
        = (findDecisiveAux judge comp log.enum).1 from rfl, hL]
    apply findDecisiveAux_error_prop judge comp e L1 i m L2 ?_ hsc hj
    intro p hp hpsc
    obtain ⟨hplt, hpget⟩ := hpre p hp
    exact hall p.1 p.2 hplt hpget hpsc

/-- C2 counterexample: a judge exception on an in-scope step propagates out
of `find_decisive_error_step`, contradicting the claim that such exceptions
are recovered locally in the decisive-step search as well. -/
theorem c2_judge_error_recovery_counterexample :
    find_decisive_error_step (fun _ => .error "Timeout") [exAi] "Orchestrator"
        = .error (.judgeErr "Timeout") ∧
      (find_decisive_error_step (fun _ => .error "Timeout") [exAi]
        "Orchestrator").isOk = false := by
  constructor
  · with_unfolding_all decide
  · with_unfolding_all decide

/-- C2 witness: with the judge raising on its first call, `find_issue_origin`
still returns, the errored step carries the zero-confidence error annotation,
and the second step was still evaluated. -/
theorem c2_judge_error_recovery_witness :
    (applyAnnotations exTrace2 (originCandidatesOf exTrace2 true (.ok "all") 20)
        exJudgeErr (1/2)).get?
        ((originCandidatesOf exTrace2 true (.ok "all") 20).get ⟨0, by decide⟩).1
      = some ⟨true,
          { core := ((originCandidatesOf exTrace2 true (.ok "all") 20).get
              ⟨0, by decide⟩).2.core
            metadata := some
              { is_culprit := some false, confidence := some 0
                explanation := some ("Error during evaluation: " ++ "Timeout")
                component := some
                  (msgComponentOr ((originCandidatesOf exTrace2 true (.ok "all") 20).get
                    ⟨0, by decide⟩).2) } }⟩ ∧
    (applyAnnotations exTrace2 (originCandidatesOf exTrace2 true (.ok "all") 20)
        exJudgeErr (1/2)).get?
        ((originCandidatesOf exTrace2 true (.ok "all") 20).get ⟨1, by decide⟩).1
      = some ⟨true, annotate (1/2) exJudgeErr 1
          ((originCandidatesOf exTrace2 true (.ok "all") 20).get ⟨1, by decide⟩).2⟩ := by
  constructor
  · exact c2_judge_error_recovery.2.1 exTrace2 (.ok "all") exJudgeErr 20 (1/2) true
      (originResults exTrace2 true (.ok "all") 20 exJudgeErr (1/2))
      (some (originSummary exTrace2 true (.ok "all") 20 exJudgeErr (1/2)))
      (applyAnnotations exTrace2 (originCandidatesOf exTrace2 true (.ok "all") 20)
        exJudgeErr (1/2)) 0 (by decide) "Timeout" rfl rfl
  · exact c2_judge_error_recovery.2.2.1 exTrace2 (.ok "all") exJudgeErr 20 (1/2) true
      (originResults exTrace2 true (.ok "all") 20 exJudgeErr (1/2))
      (some (originSummary exTrace2 true (.ok "all") 20 exJudgeErr (1/2)))
      (applyAnnotations exTrace2 (originCandidatesOf exTrace2 true (.ok "all") 20)
        exJudgeErr (1/2)) 1 (by decide) rfl

/-! ## Claim C9 -/

/-- C9: neither analysis removes, reorders, or rewrites messages — after
`find_issue_origin` or `failure_analysis` returns, the message sequence is
unchanged in length and order, and each message keeps its role, content,
name, id, and tool calls; only the attribution-metadata slot differs. -/
theorem c9_frame_condition :
    (∀ (entries : List Entry) (cr : Except String String)
        (judge : Nat → Except String String) (maxN : Nat) (t : ℚ) (uf : Bool)
        (rs : List (Msg × ℚ × String)) (sm : Option SummaryO) (es : List Entry),
      find_issue_origin (some entries) cr judge maxN t uf = .ok (rs, sm, es) →
      es.map (fun en => (en.isBase, en.msg.core))
        = entries.map fun en => (en.isBase, en.msg.core)) ∧
    (∀ (entries : List Entry) (rc : Except String String)
        (sj : Nat → Except String String)
        (fs : List (Msg × ℚ × String)) (sm : Option SummaryF) (es : List Entry),
      failure_analysis (some entries) rc sj = .ok (fs, sm, es) →
      es.map (fun en => (en.isBase, en.msg.core))
        = entries.map fun en => (en.isBase, en.msg.core)) := by
  constructor
  · intro entries cr judge maxN t uf rs sm es hok
    obtain ⟨-, hes⟩ := origin_ok_components entries cr judge maxN t uf rs sm es hok
    rw [hes]
    exact applyAnnotations_shape entries uf cr maxN judge t
  · intro entries rc sj fs sm es hok
    simp only [failure_analysis] at hok
    split_ifs at hok with h1
    · simp only [Except.ok.injEq, Prod.mk.injEq] at hok
      rw [← hok.2.2]
    · revert hok
      cases rc with
      | error e => intro hok; exact absurd hok (by simp)
      | ok txt =>
        simp only
        cases hd : find_decisive_error_step sj (entries.map (·.msg))
            (sanitizeComponent txt) with
        | error e => intro hok; exact absurd hok (by simp)
        | ok dec =>
          intro hok
          simp only [Except.ok.injEq, Prod.mk.injEq] at hok
          rw [← hok.2.2]
          exact failureEntriesFinal_shape entries (sanitizeComponent txt) dec

/-- C9 witness: on the concrete three-message trace, both analyses return a
message list with the same shape (flags and core fields) as the input. -/
theorem c9_frame_condition_witness :
    (applyAnnotations exTrace (originCandidatesOf exTrace true (.ok "all") 20)
        exJudge5 (1/2)).map (fun en => (en.isBase, en.msg.core))
      = exTrace.map (fun en => (en.isBase, en.msg.core)) ∧
    (failureEntriesFinal exTrace "check_calendar"
        (some (2, exTool, "Yes: broke"))).map (fun en => (en.isBase, en.msg.core))
      = exTrace.map fun en => (en.isBase, en.msg.core) := by
  constructor
  · exact c9_frame_condition.1 exTrace (.ok "all") exJudge5 20 (1/2) true
      (originResults exTrace true (.ok "all") 20 exJudge5 (1/2))
      (some (originSummary exTrace true (.ok "all") 20 exJudge5 (1/2)))
      (applyAnnotations exTrace (originCandidatesOf exTrace true (.ok "all") 20)
        exJudge5 (1/2)) rfl
  · exact c9_frame_condition.2 exTrace (.ok "'check_calendar'")
      (fun _ => .ok "Yes: broke")
      (failureTuples exTrace "check_calendar" (some (2, exTool, "Yes: broke")))
      (some (failureSummary exTrace "check_calendar" (some (2, exTool, "Yes: broke"))))
      (failureEntriesFinal exTrace "check_calendar" (some (2, exTool, "Yes: broke")))
      (by with_unfolding_all decide)

/-! ## Claim C4 -/

/-- C4: keyed by message id (with ids unique within each input, as ids are
unique within a trace), `combine_results` produces exactly the multiset that
merges each culprit tuple with its matching failure tuple — for an id in both
inputs a single merged entry with max confidence, provenance-tagged
explanations joined, source list the union, and the two flags preserved
independently — plus one failure-only entry per unmatched failure tuple; on
inputs sharing no id it yields `len(A) + len(B)` entries, each with a
single-element provenance list; and the final list is sorted by the 3-key
`(not is_failure, not is_responsible, -confidence)`. -/
theorem c4_merger_characterization (A B : List CombIn)
    (hA : (A.map combKey).Nodup) (hB : (B.map combKey).Nodup) :
    (combine_results A B).Perm
        (A.map (specMergeA B) ++ (B.filter (specFresh A)).map specSoloB)
    ∧ (combine_results A B).Pairwise (fun x y => combLe x y = true)
    ∧ (∀ a ∈ A, ∀ b ∈ B, combKey b = combKey a →
        specMergedAB a b ∈ combine_results A B)
    ∧ ((∀ a ∈ A, ∀ b ∈ B, combKey b ≠ combKey a) →
        (combine_results A B).length = A.length + B.length
        ∧ ∀ x ∈ combine_results A B, x.sources.length = 1) := by
  have hpre := combine_pre_sort A B hA hB
  have hperm : (combine_results A B).Perm
      (A.map (specMergeA B) ++ (B.filter (specFresh A)).map specSoloB) := by
    have h := List.mergeSort_perm
      ((processFailures B (processCulprits A [])).map fun kd => entryToOut kd.2)
      combLe
    exact h.trans (hpre ▸ List.Perm.refl _)
  refine ⟨hperm, ?_, ?_, ?_⟩
  · exact List.sorted_mergeSort
      (fun x y z => keyLe3_trans (sortKey3 x) (sortKey3 y) (sortKey3 z))
      (fun x y => keyLe3_total (sortKey3 x) (sortKey3 y)) _
  · intro a ha b hb hk
    have hfind : B.find? (fun b' => decide (combKey b' = combKey a)) = some b :=
      findB_key_unique B hB b hb (combKey a) hk
    have hmerge : specMergeA B a = specMergedAB a b := by
      simp only [specMergeA, hfind]
    refine hperm.mem_iff.mpr (List.mem_append_left _ ?_)
    rw [← hmerge]
    exact List.mem_map_of_mem (specMergeA B) ha
  · intro hdisj
    constructor
    · rw [hperm.length_eq, List.length_append, List.length_map, List.length_map]
      have hfull : B.filter (specFresh A) = B := by
        apply List.filter_eq_self.mpr
        intro b hb
        simp only [specFresh, Bool.not_eq_eq_eq_not, Bool.not_true]
        rw [List.contains_eq_any_beq, List.any_eq_false]
        intro k hk
        rcases List.mem_map.mp hk with ⟨a, ha, hka⟩
        simp only [beq_iff_eq]
        intro hc
        exact hdisj a ha b hb (by rw [hc, hka])
      rw [hfull]
    · intro x hx
      rcases List.mem_append.mp (hperm.mem_iff.mp hx) with hx1 | hx1
      · rcases List.mem_map.mp hx1 with ⟨a, ha, hxa⟩
        have hfind : B.find? (fun b' => decide (combKey b' = combKey a)) = none := by
          apply List.find?_eq_none.mpr
          intro b hb
          simp only [decide_eq_true_eq]
          exact hdisj a ha b hb
        rw [← hxa]
        simp only [specMergeA, hfind, specSoloA]
        rfl
      · rcases List.mem_map.mp hx1 with ⟨b, _, hxb⟩
        rw [← hxb]
        rfl

/-- Closed instantiation of C4 on a one-culprit, two-failure input whose
first failure tuple shares the culprit's message id. -/
theorem c4_merger_characterization_witness :
    ((c4A.map combKey).Nodup ∧ (c4B.map combKey).Nodup)
    ∧ (combine_results c4A c4B).Pairwise (fun x y => combLe x y = true)
    ∧ specMergedAB c4a1 c4b1 ∈ combine_results c4A c4B := by
  have h := c4_merger_characterization c4A c4B (by with_unfolding_all decide)
    (by with_unfolding_all decide)
  refine ⟨⟨by with_unfolding_all decide, by with_unfolding_all decide⟩, h.2.1, ?_⟩
  exact h.2.2.1 c4a1 (by with_unfolding_all decide) c4b1
    (by with_unfolding_all decide) (by with_unfolding_all decide)

end GoonGov
